import Mathlib

/-!
Verification of the Proxy Group Composition Engine of
`src/generate_clash_config.py` (class `ClashConfigGenerator`).

The engine is embedded shallowly: every factory method of the Python class
becomes a pure Lean function over a structured input `Cfg` that mirrors the
already-loaded configuration state (the INI sections and the YAML rules
document; reading and parsing those files is the excluded loader collaborator).
Python dictionaries become association lists (INI keys are unique per section),
Python strings become `String`, and a Python value that may be a string or
`None` becomes `Option String`.  Member lists of emitted groups are
`List (Option String)` because `generate_main_proxy_groups` can insert the
Python value `None` into a `proxies` list (line 720 of the source).

`generate_merged_region_groups` reads the local variable `filter_regex` that is
only assigned under `if keywords:`; when the first emitted region has an empty
keyword list the Python code raises `UnboundLocalError`.  The embedding returns
`Option (List PG)` there, with `none` for that crash.
-/

set_option autoImplicit false
set_option linter.unusedVariables false

namespace ClashGen

/-! ## String utilities mirroring the Python primitives used by the engine -/

/-- Characters removed by Python `str.strip()` (ASCII whitespace). -/
def isPySpace (c : Char) : Bool :=
  c == ' ' || c == '\t' || c == '\n' || c == '\r' || c == Char.ofNat 11 || c == Char.ofNat 12

/-- Helper for `splitOnChar`: accumulates the current field in reverse. -/
def splitOnCharAux (sep : Char) : List Char → List Char → List String
  | [], acc => [String.mk acc.reverse]
  | c :: cs, acc =>
    if c == sep then String.mk acc.reverse :: splitOnCharAux sep cs []
    else splitOnCharAux sep cs (c :: acc)

/-- Python `s.split(sep)` for a one-character separator; keeps empty fields and
returns `[""]` on the empty string, exactly like Python. -/
def splitOnChar (sep : Char) (s : String) : List String :=
  splitOnCharAux sep s.data []

/-- Python `s.strip()`. -/
def pyStrip (s : String) : String :=
  String.mk (((s.data.dropWhile isPySpace).reverse.dropWhile isPySpace).reverse)

/-- Python `[p.strip() for p in s.split(sep)]`, the idiom used throughout the
source to parse comma- and pipe-delimited configuration values. -/
def splitStrip (sep : Char) (s : String) : List String :=
  (splitOnChar sep s).map pyStrip

/-- Python `sep.join(l)`. -/
def joinWith (sep : String) : List String → String
  | [] => ""
  | [s] => s
  | s :: rest => s ++ sep ++ joinWith sep rest

/-- Python `s.lower()` (ASCII case folding, which is all the source needs for
its comparison against the sentinel `'manual'`). -/
def pyLower (s : String) : String :=
  String.mk (s.data.map Char.toLower)

/-! ## Data model -/

/-- A region as produced by `get_regions`: display emoji plus matching
keywords.  `get_regions` only builds a region from at least two comma fields,
so keyword lists coming from the loader are never empty; the factories are
nevertheless total over arbitrary keyword lists, as in the source. -/
structure Region where
  emoji : String
  keywords : List String
deriving DecidableEq, Repr

/-- The `[relay_groups]` INI section.  Each field is `none` when the key is
absent (then `config.get`'s fallback applies). -/
structure RelaySec where
  relayName : Option String
  relayType : Option String
  relayRegions : Option String
deriving DecidableEq, Repr

/-- The `[manual_select]` INI section. -/
structure ManualSec where
  enabled : Bool
  msName : Option String
  msEmoji : Option String
deriving DecidableEq, Repr

/-- One entry of `proxy_groups.main_groups` in the YAML rules document. -/
structure MainGroupDecl where
  name : String
  type : String
deriving DecidableEq, Repr

/-- One entry of `proxy_groups.special_groups` in the YAML rules document:
a verbatim `{name, type, proxies}` triple. -/
structure SpecialGroupDecl where
  name : String
  type : String
  proxies : List String
deriving DecidableEq, Repr

/-- An emitted proxy-group record.  Each `Option` field models presence of the
corresponding key in the Python dict; `name` and `type` are set by every
constructor site in the source.  `proxies` elements are `Option String`
because the Python code can insert `None` into a proxies list.
`targetGroups` models the internal `_target_groups` key. -/
structure PG where
  name : String
  type : String
  filter : Option String := none
  url : Option String := none
  use : Option (List String) := none
  proxies : Option (List (Option String)) := none
  timeout : Option Nat := none
  interval : Option Nat := none
  tolerance : Option Nat := none
  strategy : Option String := none
  targetGroups : Option (List String) := none
deriving DecidableEq, Repr

/-- The loaded configuration state visible to the engine (the `self.config`
INI sections and `self.rules_config` YAML keys that the factory methods read).

* `providers` — the keys of `get_proxy_providers()` output, in insertion order.
* `regions` — the `get_regions()` output as an ordered association list.
* `excludeRaw` — the raw `[filter] exclude_keywords` value (`none` when the
  section or key is absent, which `config.get`'s `fallback=""` maps to `""`).
* `regionProviders` — the raw `[region_providers]` section (comma-joined
  provider lists, split by the consuming functions as in the source).
* `proxyGroupDefaults` — the raw `[proxy_group_defaults]` section.
* `customGroupSpecs` — the raw `[custom_groups]` section.
* `mainRegionGroups` — the raw `[main_proxy_region_groups]` section.
* `relayTargets` — the raw `[relay_groups_targets]` section.
* `groupTypeOverrides` — the `[clash] group_type_{region}` keys, indexed here
  by region name.
-/
structure Cfg where
  providers : List String
  regions : List (String × Region)
  excludeRaw : Option String
  defaultGroupType : Option String
  groupTypeOverrides : List (String × String)
  testUrl : Option String
  useMergedRegionGroups : Bool
  regionProviders : Option (List (String × String))
  relaySec : Option RelaySec
  relayTargets : Option (List (String × String))
  proxyGroupDefaults : Option (List (String × String))
  manualSelect : Option ManualSec
  customGroupSpecs : List (String × String)
  mainGroups : List MainGroupDecl
  specialGroups : List SpecialGroupDecl
  mainRegionGroups : Option (List (String × String))
deriving DecidableEq, Repr

/-! ## Configuration accessors -/

/-- `self.config.get("clash", "test_url", fallback=...)`. -/
def getTestUrl (cfg : Cfg) : String :=
  cfg.testUrl.getD "http://connectivitycheck.gstatic.com/generate_204"

/-- `get_exclude_keywords` (source lines 94-101): empty unless the raw value
is a non-empty string, in which case it is comma-split and stripped. -/
def getExcludeKeywords (cfg : Cfg) : List String :=
  match cfg.excludeRaw with
  | none => []
  | some s => if s == "" then [] else splitStrip ',' s

/-- The `[region_providers]` section with each value comma-split and stripped,
as every consumer of the section does first. -/
def rawRegionProviders (cfg : Cfg) : List (String × List String) :=
  (cfg.regionProviders.getD []).map fun kv => (kv.1, splitStrip ',' kv.2)

/-- `_get_region_providers_config` (source lines 471-482): for each
`[region_providers]` entry, the configured providers that actually exist, in
`providers` order; a region only appears when at least one provider matched. -/
def getRegionProvidersConfig (cfg : Cfg) (providers : List String) :
    List (String × List String) :=
  ((rawRegionProviders cfg).map fun kv =>
    (kv.1, providers.filter fun p => kv.2.contains p)).filter fun kv => !kv.2.isEmpty

/-- `proxy_defaults` as built at source lines 572-576 and 648-653: the
`[proxy_group_defaults]` entries with non-empty values. -/
def getProxyDefaults (cfg : Cfg) : List (String × String) :=
  (cfg.proxyGroupDefaults.getD []).filter fun kv => kv.2 != ""

/-! ## Filter builder -/

/-- The filter construction inlined at source lines 192-203 (and repeated at
278-283 and 392-396): the include keywords joined by `|`, wrapped in a
negative lookahead when exclusion keywords are present. -/
def buildFilter (keywords excludeKeywords : List String) : String :=
  let filterRegex := joinWith "|" keywords
  if excludeKeywords.isEmpty then filterRegex
  else "(?!.*(" ++ joinWith "|" excludeKeywords ++ ")).*(" ++ filterRegex ++ ")"

/-- Modelled from the spec: the intended matching semantics of the built
filter (the downstream regex consumer is outside this repository) — a node
label matches iff it contains at least one include keyword and none of the
exclude keywords. -/
def charsHavePrefix : List Char → List Char → Bool
  | [], _ => true
  | _ :: _, [] => false
  | a :: as, b :: bs => a == b && charsHavePrefix as bs

/-- `hay` contains `needle` as a contiguous substring. -/
def charsContain (needle : List Char) : List Char → Bool
  | [] => charsHavePrefix needle []
  | b :: bs => charsHavePrefix needle (b :: bs) || charsContain needle bs

/-- String containment, Python's `needle in hay`. -/
def strContains (hay needle : String) : Bool :=
  charsContain needle.data hay.data

/-- Modelled from the spec: a label matches the intended filter semantics iff
it contains some include keyword and no exclude keyword. -/
def intendedFilterMatch (includes excludes : List String) (label : String) : Bool :=
  includes.any (fun k => strContains label k) && !(excludes.any fun k => strContains label k)

/-! ## Region group factory -/

/-- `_create_proxy_group_config` (source lines 125-149). -/
def createProxyGroupConfig (name gtype : String) (useProviders : List String)
    (filterRegex testUrl : String) : PG :=
  let g : PG := { name := name, type := gtype, filter := some filterRegex, url := some testUrl }
  let g :=
    if gtype == "fallback" then { g with timeout := some 5000, interval := some 600 }
    else if gtype == "url-test" then { g with tolerance := some 500, interval := some 600 }
    else if gtype == "load-balance" then
      { g with strategy := some "consistent-hashing", interval := some 600 }
    else g
  if useProviders.isEmpty then g else { g with use := some useProviders }

/-- `generate_auto_groups` (source lines 151-226): per-provider mode, one
group per (provider, region) pair unless the `[region_providers]` restriction
excludes the provider or the region has no keywords. -/
def generateAutoGroups (cfg : Cfg) (providers : List String)
    (regions : List (String × Region)) : List PG :=
  let testUrl := getTestUrl cfg
  let excl := getExcludeKeywords cfg
  let defaultType := cfg.defaultGroupType.getD "url-test"
  let rpMap := getRegionProvidersConfig cfg providers
  providers.flatMap fun p =>
    regions.filterMap fun rr =>
      if (rpMap.lookup rr.1).isSome && !(((rpMap.lookup rr.1).getD []).contains p) then none
      else if rr.2.keywords.isEmpty then none
      else
        let gt := (cfg.groupTypeOverrides.lookup rr.1).getD defaultType
        some (createProxyGroupConfig (rr.2.emoji ++ rr.1 ++ "_" ++ p) gt [p]
          (buildFilter rr.2.keywords excl) testUrl)

/-- The per-region provider resolution of `generate_merged_region_groups`
(source lines 264-276): the configured providers that exist (skip the region
— `none` — when the configured ones are all unknown), or all providers when
the region has no `[region_providers]` entry. -/
def mergedSel (cfg : Cfg) (providers : List String) (rr : String × Region) :
    Option (List String) :=
  match (rawRegionProviders cfg).lookup rr.1 with
  | some lst =>
    let sel := lst.filter fun p => providers.contains p
    if sel.isEmpty then none else some sel
  | none => some providers

/-- The resolved group type of a merged region group (source lines 259-262). -/
def mergedTypeOf (cfg : Cfg) (rr : String × Region) : String :=
  (cfg.groupTypeOverrides.lookup rr.1).getD (cfg.defaultGroupType.getD "fallback")

/-- The loop body of `generate_merged_region_groups` (source lines 255-297),
with the function-scoped Python local `filter_regex` made explicit: `none`
models `UnboundLocalError` when a region with empty keywords is reached before
any filter was assigned. -/
def mergedLoop (cfg : Cfg) (providers : List String) :
    List (String × Region) → List PG → Option String → Option (List PG)
  | [], acc, _ => some acc
  | rr :: rest, acc, lastFilter =>
    match mergedSel cfg providers rr with
    | none => mergedLoop cfg providers rest acc lastFilter
    | some sel =>
      let fOpt := if rr.2.keywords.isEmpty then lastFilter
        else some (buildFilter rr.2.keywords (getExcludeKeywords cfg))
      match fOpt with
      | none => none
      | some fr =>
        mergedLoop cfg providers rest
          (acc ++ [createProxyGroupConfig (rr.2.emoji ++ rr.1) (mergedTypeOf cfg rr) sel fr
            (getTestUrl cfg)])
          (some fr)

/-- `generate_merged_region_groups` (source lines 228-300). -/
def generateMergedRegionGroups (cfg : Cfg) (providers : List String)
    (regions : List (String × Region)) : Option (List PG) :=
  mergedLoop cfg providers regions [] none

/-- The merged-mode output when no `UnboundLocalError` is reachable (every
region that survives the provider check supplies a fresh filter). -/
def mergedRegionGroupsClean (cfg : Cfg) (providers : List String)
    (regions : List (String × Region)) : List PG :=
  regions.filterMap fun rr =>
    match mergedSel cfg providers rr with
    | none => none
    | some sel =>
      some (createProxyGroupConfig (rr.2.emoji ++ rr.1) (mergedTypeOf cfg rr) sel
        (buildFilter rr.2.keywords (getExcludeKeywords cfg)) (getTestUrl cfg))

/-! ## Custom group factory -/

/-- `_create_custom_proxy_group_config` (source lines 302-322). -/
def createCustomProxyGroupConfig (name gtype : String) (filterRegex testUrl : String) : PG :=
  let g : PG := { name := name, type := gtype, filter := some filterRegex, url := some testUrl }
  if gtype == "fallback" then { g with timeout := some 5000, interval := some 600 }
  else if gtype == "url-test" then { g with tolerance := some 500, interval := some 600 }
  else if gtype == "load-balance" then
    { g with strategy := some "consistent-hashing", interval := some 600 }
  else g

/-- The per-spec body of `generate_custom_groups` (source lines 343-438).
`none` is a skipped spec — too few fields, no valid provider, no region field
or no valid region keyword.  The Python loop body can raise no other
exception (every index is guarded), so its `try/except` is modelled by this
total `Option`. -/
def parseCustomGroup (cfg : Cfg) (providers : List String)
    (regions : List (String × Region)) (groupName raw : String) : Option PG :=
  let parts := (splitOnChar ',' raw).map pyStrip
  match parts with
  | emoji :: gtype :: providersStr :: regionsStr :: rest =>
    let targetGroupsStr := rest.headD ""
    let hasSpecific := providersStr != ""
    let selectedProviders :=
      if hasSpecific then
        ((splitOnChar '|' providersStr).map pyStrip).filter fun p => providers.contains p
      else []
    if hasSpecific && selectedProviders.isEmpty then none
    else
      let targetGroups :=
        if targetGroupsStr != "" then (splitOnChar '|' targetGroupsStr).map pyStrip else []
      if regionsStr != "" then
        let selectedRegions := (splitOnChar '|' regionsStr).map pyStrip
        let allKeywords := selectedRegions.flatMap fun rn =>
          match regions.lookup rn with
          | some rc => rc.keywords
          | none => []
        if allKeywords.isEmpty then none
        else
          let fr := buildFilter allKeywords (getExcludeKeywords cfg)
          let g := createCustomProxyGroupConfig (emoji ++ groupName) gtype fr (getTestUrl cfg)
          some { g with
            use := some (if hasSpecific then selectedProviders else providers),
            targetGroups := some targetGroups }
      else none
  | _ => none

/-- `generate_custom_groups` applied to an explicit spec list. -/
def generateCustomGroupsFrom (cfg : Cfg) (providers : List String)
    (regions : List (String × Region)) (specs : List (String × String)) : List PG :=
  specs.filterMap fun kv => parseCustomGroup cfg providers regions kv.1 kv.2

/-- `generate_custom_groups` (source lines 324-443), reading the
`[custom_groups]` section from the configuration. -/
def generateCustomGroups (cfg : Cfg) (providers : List String)
    (regions : List (String × Region)) : List PG :=
  generateCustomGroupsFrom cfg providers regions cfg.customGroupSpecs

/-! ## Manual-select factory -/

/-- `generate_manual_select_group` (source lines 445-469).  Note the emitted
dict has only `name`, `type` and `use` — no `filter`, no `url`. -/
def generateManualSelectGroup (cfg : Cfg) (providers : List String) : Option PG :=
  match cfg.manualSelect with
  | none => none
  | some ms =>
    if !ms.enabled then none
    else
      some { name := (ms.msEmoji.getD "✋") ++ ms.msName.getD "手动选择",
             type := "select", use := some providers }

/-! ## Relay group factory -/

/-- The merged-style group name of each region, `{emoji}{region}`. -/
def mergedStyleNames (regions : List (String × Region)) : List String :=
  regions.map fun rr => rr.2.emoji ++ rr.1

/-- The relay's region allow-list (source lines 532-536): the comma-split
`regions` key when non-empty, otherwise every region. -/
def relayIncludedRegions (rs : RelaySec) (regions : List (String × Region)) : List String :=
  let s := rs.relayRegions.getD ""
  if s != "" then splitStrip ',' s else regions.map (·.1)

/-- The relay member derivation (source lines 543-565). -/
def relayDerivedProxies (cfg : Cfg) (providers : List String)
    (regions : List (String × Region)) (includedRegions : List String) : List String :=
  if cfg.useMergedRegionGroups then
    regions.filterMap fun rr =>
      if includedRegions.contains rr.1 then some (rr.2.emoji ++ rr.1) else none
  else
    let rpMap := getRegionProvidersConfig cfg providers
    providers.flatMap fun p =>
      regions.filterMap fun rr =>
        if (rpMap.lookup rr.1).isSome then
          if ((rpMap.lookup rr.1).getD []).contains p && includedRegions.contains rr.1 then
            some (rr.2.emoji ++ rr.1 ++ "_" ++ p)
          else none
        else if includedRegions.contains rr.1 then some (rr.2.emoji ++ rr.1 ++ "_" ++ p)
        else none

/-- `generate_relay_group` (source lines 511-612).  A configured default node
that is present among the derived members is moved to the front
(`list.remove` drops the first occurrence); an absent one is only logged. -/
def generateRelayGroup (cfg : Cfg) (providers : List String)
    (regions : List (String × Region)) : List PG :=
  match cfg.relaySec with
  | none => []
  | some rs =>
    let testUrl := getTestUrl cfg
    let relayName := rs.relayName.getD "统一代理"
    let relayType := rs.relayType.getD "fallback"
    let proxies := relayDerivedProxies cfg providers regions (relayIncludedRegions rs regions)
    if proxies.isEmpty then []
    else
      let proxies2 :=
        match (getProxyDefaults cfg).lookup relayName with
        | some dn => if proxies.contains dn then dn :: proxies.erase dn else proxies
        | none => proxies
      let g : PG := { name := relayName, type := relayType,
                      proxies := some (proxies2.map some), url := some testUrl }
      let g :=
        if relayType == "fallback" then { g with timeout := some 5000, interval := some 600 }
        else if relayType == "url-test" then { g with tolerance := some 100, interval := some 300 }
        else if relayType == "load-balance" then
          { g with strategy := some "consistent-hashing", interval := some 600 }
        else g
      [g]

/-! ## Main group assembler -/

/-- `_get_region_group_names` (source lines 484-509). -/
def getRegionGroupNames (cfg : Cfg) (providers : List String)
    (regions : List (String × Region)) (useMerged : Bool) : List String :=
  if useMerged then mergedStyleNames regions
  else
    let rpMap := getRegionProvidersConfig cfg providers
    providers.flatMap fun p =>
      regions.filterMap fun rr =>
        if (rpMap.lookup rr.1).isSome then
          if ((rpMap.lookup rr.1).getD []).contains p then
            some (rr.2.emoji ++ rr.1 ++ "_" ++ p)
          else none
        else some (rr.2.emoji ++ rr.1 ++ "_" ++ p)

/-- `_should_include_relay_group` (source lines 614-626). -/
def shouldIncludeRelayGroup (cfg : Cfg) (groupName : String) : Bool :=
  match cfg.relayTargets with
  | none => true
  | some sec => ((sec.lookup groupName).getD "") != ""

/-- The `[main_proxy_region_groups]` section with values comma-split
(source lines 656-661). -/
def mainCustomRegionCfg (cfg : Cfg) : List (String × List String) :=
  (cfg.mainRegionGroups.getD []).map fun kv => (kv.1, splitStrip ',' kv.2)

/-- The relay group name as `generate_main_proxy_groups` computes it (source
lines 663-666): `None` without a `[relay_groups]` section. -/
def relayGroupNameOf (cfg : Cfg) : Option String :=
  match cfg.relaySec with
  | none => none
  | some rs => some (rs.relayName.getD "统一代理")

/-- The pinned-default part of a main group's proxies (source lines 679-683):
appended only when the pin is configured (non-empty). -/
def mainPinPart (defaultNode : Option String) : List (Option String) :=
  match defaultNode with
  | some d => [some d]
  | none => []

/-- The region part of a main group's proxies (source lines 685-705).  With a
custom region list the code appends merged-style `{emoji}{region}` names (in
`regions` order) regardless of mode; otherwise all `region_group_names`. -/
def mainRegionPart (cfg : Cfg) (regions : List (String × Region))
    (regionGroupNames : List String) (groupName : String)
    (defaultNode : Option String) : List (Option String) :=
  match (mainCustomRegionCfg cfg).lookup groupName with
  | some regionList =>
    if regionList.length == 1 && pyLower (regionList.headD "") == "manual" then []
    else
      regions.filterMap fun rr =>
        if regionList.contains rr.1 && some (rr.2.emoji ++ rr.1) != defaultNode then
          some (some (rr.2.emoji ++ rr.1))
        else none
  | none =>
    regionGroupNames.filterMap fun n =>
      if some n != defaultNode then some (some n) else none

/-- The custom-group part of a main group's proxies (source lines 707-716). -/
def mainCustomPart (customGroups : List PG) (groupName : String)
    (defaultNode : Option String) : List (Option String) :=
  customGroups.filterMap fun cg =>
    if ((cg.targetGroups.getD []).isEmpty || (cg.targetGroups.getD []).contains groupName)
        && some cg.name != defaultNode then
      some (some cg.name)
    else none

/-- Python `if cond and x not in proxies: proxies.insert(0, x)`. -/
def guardedCons (cond : Bool) (x : Option String) (l : List (Option String)) :
    List (Option String) :=
  if cond && !(l.contains x) then x :: l else l

/-- Python `if cond and x not in proxies: proxies.append(x)`. -/
def guardedAppend (cond : Bool) (x : Option String) (l : List (Option String)) :
    List (Option String) :=
  if cond && !(l.contains x) then l ++ [x] else l

/-- The full proxies list of one main group (source lines 677-733), including
the relay insertion at line 719-720 — whose condition
`default_node == relay_group_name and relay_group_name not in proxies` also
fires when both are Python `None`, inserting `None` at index 0. -/
def buildMainProxies (cfg : Cfg) (regions : List (String × Region))
    (regionGroupNames : List String) (customGroups : List PG)
    (manualSelectGroup : Option PG) (groupName : String)
    (defaultNode : Option String) : List (Option String) :=
  let relayName := relayGroupNameOf cfg
  let base := mainPinPart defaultNode
    ++ mainRegionPart cfg regions regionGroupNames groupName defaultNode
    ++ mainCustomPart customGroups groupName defaultNode
  let afterInsert := guardedCons (defaultNode == relayName) relayName base
  let afterRelay :=
    match relayName with
    | some rn =>
      guardedAppend (rn != "" && some rn != defaultNode && shouldIncludeRelayGroup cfg groupName)
        (some rn) afterInsert
    | none => afterInsert
  let afterManual :=
    match manualSelectGroup with
    | some mg => guardedAppend (some mg.name != defaultNode) (some mg.name) afterRelay
    | none => afterRelay
  guardedAppend (some "DIRECT" != defaultNode) (some "DIRECT") afterManual

/-- One emitted main group (source lines 674-740). -/
def buildMainGroup (cfg : Cfg) (regions : List (String × Region))
    (regionGroupNames : List String) (customGroups : List PG)
    (manualSelectGroup : Option PG) (decl : MainGroupDecl) : PG :=
  let defaultNode := (getProxyDefaults cfg).lookup decl.name
  { name := decl.name, type := decl.type,
    proxies := some (buildMainProxies cfg regions regionGroupNames customGroups
      manualSelectGroup decl.name defaultNode) }

/-- `generate_main_proxy_groups` (source lines 628-752): the declared main
groups followed by the pass-through special groups. -/
def generateMainProxyGroups (cfg : Cfg) (providers : List String)
    (regions : List (String × Region)) (customGroups : List PG)
    (manualSelectGroup : Option PG) : List PG :=
  let regionGroupNames :=
    getRegionGroupNames cfg providers regions cfg.useMergedRegionGroups
  cfg.mainGroups.map
      (buildMainGroup cfg regions regionGroupNames customGroups manualSelectGroup)
    ++ cfg.specialGroups.map fun sg =>
      { name := sg.name, type := sg.type, proxies := some (sg.proxies.map some) }

/-! ## Composition driver -/

/-- The dict comprehension at source lines 813-817 removing keys that start
with an underscore — of which only `_target_groups` exists. -/
def stripInternal (g : PG) : PG :=
  { g with targetGroups := none }

/-- The region-group factory output selected by the mode flag (source lines
796-800); `none` on the merged-mode `UnboundLocalError`. -/
def regionFactoryGroups (cfg : Cfg) : Option (List PG) :=
  if cfg.useMergedRegionGroups then generateMergedRegionGroups cfg cfg.providers cfg.regions
  else some (generateAutoGroups cfg cfg.providers cfg.regions)

/-- `_generate_all_proxy_groups` (source lines 780-821): relay groups, then
main groups, then region groups, then custom groups (internal annotation
stripped), then the manual-select group. -/
def generateAllProxyGroups (cfg : Cfg) : Option (List PG) :=
  let providers := cfg.providers
  let regions := cfg.regions
  let relayGroups := generateRelayGroup cfg providers regions
  let customGroups := generateCustomGroups cfg providers regions
  let manualSelectGroup := generateManualSelectGroup cfg providers
  match regionFactoryGroups cfg with
  | none => none
  | some regionGroups =>
    let mainGroups := generateMainProxyGroups cfg providers regions customGroups manualSelectGroup
    some (relayGroups ++ mainGroups ++ regionGroups ++ customGroups.map stripInternal
      ++ match manualSelectGroup with | some g => [g] | none => [])

/-- The names of all emitted groups (empty on the merged-mode crash). -/
def allGroupNames (cfg : Cfg) : List String :=
  match generateAllProxyGroups cfg with
  | some gs => gs.map PG.name
  | none => []

/-- The member list of an emitted group: its `proxies` if present, followed by
its `use` entries (no emitted group carries both). -/
def memberList (g : PG) : List (Option String) :=
  g.proxies.getD [] ++ (g.use.getD []).map some

/-- Whether a list has a repeated entry. -/
def hasDup : List (Option String) → Bool
  | [] => false
  | x :: xs => xs.contains x || hasDup xs

/-- Whether some emitted group has a repeated member. -/
def someGroupHasDupMembers (gs : List PG) : Bool :=
  gs.any fun g => hasDup (memberList g)

/-- The providers referenced by `use` fields across a group list. -/
def usedProviders (gs : List PG) : List String :=
  gs.flatMap fun g => g.use.getD []

/-! ## Derived name lists (for the uniqueness analysis) -/

/-- The names emitted by the relay factory (zero or one). -/
def relayNamesOf (cfg : Cfg) : List String :=
  (generateRelayGroup cfg cfg.providers cfg.regions).map PG.name

/-- The names of the declared main and special groups, in emission order. -/
def declaredMainNames (cfg : Cfg) : List String :=
  cfg.mainGroups.map MainGroupDecl.name ++ cfg.specialGroups.map SpecialGroupDecl.name

/-- The names emitted by the region-group factory. -/
def regionFactoryNames (cfg : Cfg) : List String :=
  (regionFactoryGroups cfg).elim [] (List.map PG.name)

/-- The names emitted by the custom-group factory. -/
def customNamesOf (cfg : Cfg) : List String :=
  (generateCustomGroups cfg cfg.providers cfg.regions).map PG.name

/-- The name emitted by the manual-select factory (zero or one). -/
def manualNamesOf (cfg : Cfg) : List String :=
  (generateManualSelectGroup cfg cfg.providers).elim [] fun g => [g.name]

/-- All factory-derived names in final concatenation order. -/
def factoryNames (cfg : Cfg) : List String :=
  relayNamesOf cfg ++ declaredMainNames cfg ++ regionFactoryNames cfg
    ++ customNamesOf cfg ++ manualNamesOf cfg

/-! ## Spec-side definitions (stated from the spec's words, for comparison) -/

/-- The per-provider region group as §4.2 of the spec describes it: name
`{emoji}{region}_{provider}`, type = region override or global default,
`use = [provider]`, `filter = build_filter(region.keywords, exclusions)`,
with the type-specific tuning constants of the spec's table. -/
def specRegionGroup (cfg : Cfg) (p : String) (rr : String × Region) : PG :=
  let gt := (cfg.groupTypeOverrides.lookup rr.1).getD (cfg.defaultGroupType.getD "url-test")
  { name := rr.2.emoji ++ rr.1 ++ "_" ++ p
    type := gt
    use := some [p]
    filter := some (buildFilter rr.2.keywords (getExcludeKeywords cfg))
    url := some (getTestUrl cfg)
    timeout := if gt == "fallback" then some 5000 else none
    interval := if gt == "fallback" || gt == "url-test" || gt == "load-balance"
      then some 600 else none
    tolerance := if gt == "url-test" then some 500 else none
    strategy := if gt == "load-balance" then some "consistent-hashing" else none }

/-- Per-provider mode as §4.2 of the spec describes it: one group per
(provider, region) pair, provider-major then region-minor in input order,
unless the region-restriction exists and excludes the provider. -/
def specPerProviderRegionGroups (cfg : Cfg) (providers : List String)
    (regions : List (String × Region)) : List PG :=
  let rpMap := getRegionProvidersConfig cfg providers
  providers.flatMap fun p =>
    regions.filterMap fun rr =>
      if (rpMap.lookup rr.1).isSome && !(((rpMap.lookup rr.1).getD []).contains p) then none
      else some (specRegionGroup cfg p rr)

/-! ## Custom-spec field accessors (for the error-handling analysis) -/

/-- Field `i` of a raw custom-group spec after the comma split and strip
(`parts[i]`, or `""` out of range). -/
def customSpecField (v : String) (i : Nat) : String :=
  (((splitOnChar ',' v).map pyStrip).getD i "")

/-- The keyword union a custom-group spec's region field resolves to. -/
def customSpecKeywordUnion (regions : List (String × Region)) (v : String) : List String :=
  ((splitOnChar '|' (customSpecField v 3)).map pyStrip).flatMap fun rn =>
    match regions.lookup rn with
    | some rc => rc.keywords
    | none => []

/-- The provider list a custom-group spec's provider field splits into. -/
def customSpecProviderList (v : String) : List String :=
  (splitOnChar '|' (customSpecField v 2)).map pyStrip

/-! ## Concrete inputs used to instantiate and to refute the claims -/

/-- A minimal configuration: two providers, one region, everything else off. -/
def baseCfg : Cfg where
  providers := ["A", "B"]
  regions := [("HK", ⟨"🇭🇰", ["HK", "Hong Kong"]⟩)]
  excludeRaw := none
  defaultGroupType := none
  groupTypeOverrides := []
  testUrl := none
  useMergedRegionGroups := false
  regionProviders := none
  relaySec := none
  relayTargets := none
  proxyGroupDefaults := none
  manualSelect := none
  customGroupSpecs := []
  mainGroups := []
  specialGroups := []
  mainRegionGroups := none

/-- A main group declared with the same name a region group will get. -/
def cfgNameClash : Cfg :=
  { baseCfg with
    providers := ["A"]
    regions := [("HK", ⟨"", ["HK"]⟩)]
    mainGroups := [⟨"HK_A", "select"⟩] }

/-- A relay whose configured default node `X` is not among the derived
members. -/
def cfgRelayAbsentPin : Cfg :=
  { baseCfg with
    providers := ["A"]
    regions := [("HK", ⟨"🇭🇰", ["HK"]⟩)]
    relaySec := some ⟨some "Relay", some "select", none⟩
    proxyGroupDefaults := some [("Relay", "X")] }

/-- A relay whose configured default node is present among the derived
members (used to instantiate the pin-reorder statement). -/
def cfgRelayPresentPin : Cfg :=
  { baseCfg with
    relaySec := some ⟨some "Relay", some "select", none⟩
    proxyGroupDefaults := some [("Relay", "🇭🇰HK_B"), ("Main", "🇭🇰HK_A")]
    mainGroups := [⟨"Main", "select"⟩] }

/-- Merged mode with a duplicated provider name in the `[region_providers]`
entry for the region. -/
def cfgDupRestriction : Cfg :=
  { baseCfg with
    providers := ["A"]
    regions := [("HK", ⟨"🇭🇰", ["HK"]⟩)]
    useMergedRegionGroups := true
    regionProviders := some [("HK", "A,A")] }

/-- A `[region_providers]` entry naming only an unknown provider. -/
def cfgUnknownRestriction : Cfg :=
  { baseCfg with
    providers := ["A"]
    regions := [("HK", ⟨"🇭🇰", ["HK"]⟩)]
    regionProviders := some [("HK", "B")] }

/-- Manual-select factory enabled. -/
def cfgManualOn : Cfg :=
  { baseCfg with manualSelect := some ⟨true, some "Manual", some "M"⟩ }

/-- A restriction mapping region HK to provider A only (both known). -/
def cfgRestricted : Cfg :=
  { baseCfg with regionProviders := some [("HK", "A")] }

/-- One main group, no relay section and no default pin: the failing input of
the `None` insertion. -/
def cfgNoneInsertion : Cfg :=
  { baseCfg with
    providers := ["A"]
    regions := [("HK", ⟨"🇭🇰", ["HK"]⟩)]
    mainGroups := [⟨"Proxy", "select"⟩] }

/-- One well-formed custom spec surrounded by malformed ones. -/
def cfgCustomSpecs : Cfg :=
  { baseCfg with
    customGroupSpecs :=
      [("Bad1", "x,y"), ("Good", "G,select,A|B,HK,"), ("Bad2", "e,select,C|D,HK,")] }

/-- A main group pinned to a node name that exists nowhere else. -/
def cfgGhostPin : Cfg :=
  { baseCfg with
    providers := ["A"]
    regions := [("HK", ⟨"🇭🇰", ["HK"]⟩)]
    mainGroups := [⟨"Main", "select"⟩]
    proxyGroupDefaults := some [("Main", "GHOST")] }

/-- The spec's §8 scenario: providers `A`, `B`, region `HK` with emoji 🇭🇰 and
keywords `HK`, `Hong Kong`, no exclusions, per-provider mode. -/
def cfgScenario : Cfg := baseCfg

/-- The relay's final member list: the derived members, with a configured
default node moved to the front when present (source lines 586-596). -/
def relayProxiesFinal (cfg : Cfg) (providers : List String)
    (regions : List (String × Region)) (rs : RelaySec) : List String :=
  let proxies := relayDerivedProxies cfg providers regions (relayIncludedRegions rs regions)
  match (getProxyDefaults cfg).lookup (rs.relayName.getD "统一代理") with
  | some dn => if proxies.contains dn then dn :: proxies.erase dn else proxies
  | none => proxies

/-! ## General list lemmas -/

theorem lookup_map_value {α β : Type} (f : β → α) (k : String) :
    ∀ l : List (String × β),
      (l.map fun kv => (kv.1, f kv.2)).lookup k = (l.lookup k).map f
  | [] => rfl
  | kv :: rest => by
    by_cases h : k == kv.1 <;> simp [List.lookup, h, lookup_map_value f k rest]

theorem lookup_mem {β : Type} {k : String} {v : β} :
    ∀ {l : List (String × β)}, l.lookup k = some v → (k, v) ∈ l
  | [], h => by simp [List.lookup] at h
  | kv :: rest, h => by
    by_cases hk : k == kv.1
    · simp [List.lookup, hk] at h
      rcases kv with ⟨k', v'⟩
      simp at hk
      simp [hk, ← h]
    · simp [List.lookup, hk] at h
      exact List.mem_cons_of_mem _ (lookup_mem h)

theorem filterMap_if_eq_map_filter {α β : Type} (p : α → Bool) (f : α → β) :
    ∀ l : List α,
      (l.filterMap fun a => if p a then some (f a) else none) = (l.filter p).map f
  | [] => rfl
  | a :: rest => by
    by_cases h : p a <;>
      simp [List.filterMap_cons, List.filter_cons, h, filterMap_if_eq_map_filter p f rest]

theorem sublist_filterMap_of {α β : Type} {f g : α → Option β} :
    ∀ {l : List α}, (∀ a ∈ l, f a = g a ∨ f a = none) →
      (l.filterMap f).Sublist (l.filterMap g)
  | [], _ => List.Sublist.refl _
  | a :: rest, h => by
    have hrest := sublist_filterMap_of fun x hx => h x (List.mem_cons_of_mem a hx)
    rcases h a (List.mem_cons_self a rest) with hfa | hfa
    · rw [List.filterMap_cons, List.filterMap_cons, hfa]
      cases g a with
      | none => exact hrest
      | some b => exact List.Sublist.cons₂ b hrest
    · rw [List.filterMap_cons, List.filterMap_cons, hfa]
      cases g a with
      | none => exact hrest
      | some b => exact List.Sublist.cons b hrest

theorem nodup_append_singleton {α : Type} [DecidableEq α] {l : List α} {a : α}
    (hl : l.Nodup) (ha : a ∉ l) : (l ++ [a]).Nodup := by
  rw [List.nodup_append]
  refine ⟨hl, List.nodup_singleton a, ?_⟩
  intro x hx hxa
  rw [List.mem_singleton] at hxa
  exact ha (hxa ▸ hx)

/-! ## Lemmas about the guarded insertion steps -/

theorem guardedCons_nodup {c : Bool} {x : Option String} {l : List (Option String)}
    (h : l.Nodup) : (guardedCons c x l).Nodup := by
  unfold guardedCons
  split
  · next hc =>
    have hx : ¬ l.contains x := by
      rcases Bool.and_eq_true_iff.mp hc with ⟨_, hnc⟩
      simpa using hnc
    exact List.Nodup.cons (by simpa using hx) h
  · exact h

theorem guardedAppend_nodup {c : Bool} {x : Option String} {l : List (Option String)}
    (h : l.Nodup) : (guardedAppend c x l).Nodup := by
  unfold guardedAppend
  split
  · next hc =>
    have hx : ¬ l.contains x := by
      rcases Bool.and_eq_true_iff.mp hc with ⟨_, hnc⟩
      simpa using hnc
    exact nodup_append_singleton h (by simpa using hx)
  · exact h

theorem guardedCons_of_mem {c : Bool} {x : Option String} {l : List (Option String)}
    (h : x ∈ l) : guardedCons c x l = l := by
  unfold guardedCons
  have hc : l.contains x = true := by simpa using h
  simp [hc]
  intro _
  exact h

theorem guardedAppend_count_ne {c : Bool} {x y : Option String} {l : List (Option String)}
    (h : y ≠ x) : (guardedAppend c x l).count y = l.count y := by
  unfold guardedAppend
  split
  · simp [List.count_append, List.count_singleton, h]
  · rfl

theorem guardedCons_count_ne {c : Bool} {x y : Option String} {l : List (Option String)}
    (h : y ≠ x) : (guardedCons c x l).count y = l.count y := by
  unfold guardedCons
  split
  · simp [List.count_cons, h]
  · rfl

theorem guardedAppend_head_of_ne_nil {c : Bool} {x : Option String}
    {l : List (Option String)} (h : l ≠ []) :
    (guardedAppend c x l).head? = l.head? := by
  unfold guardedAppend
  split
  · cases l with
    | nil => exact absurd rfl h
    | cons a t => simp
  · rfl

theorem guardedAppend_ne_nil {c : Bool} {x : Option String} {l : List (Option String)}
    (h : l ≠ []) : guardedAppend c x l ≠ [] := by
  unfold guardedAppend
  split
  · simp
  · exact h

theorem guardedCons_ne_nil {c : Bool} {x : Option String} {l : List (Option String)}
    (h : l ≠ []) : guardedCons c x l ≠ [] := by
  unfold guardedCons
  split
  · simp
  · exact h

/-! ## Shape lemmas for the group constructors -/

theorem createProxyGroupConfig_eq (n gt : String) (u : List String) (f url : String) :
    createProxyGroupConfig n gt u f url =
      { name := n, type := gt, filter := some f, url := some url
        use := if u.isEmpty then none else some u
        timeout := if gt == "fallback" then some 5000 else none
        interval := if gt == "fallback" || gt == "url-test" || gt == "load-balance"
          then some 600 else none
        tolerance := if gt == "url-test" then some 500 else none
        strategy := if gt == "load-balance" then some "consistent-hashing" else none } := by
  unfold createProxyGroupConfig
  split_ifs <;> simp_all

theorem createCustomProxyGroupConfig_eq (n gt f url : String) :
    createCustomProxyGroupConfig n gt f url =
      { name := n, type := gt, filter := some f, url := some url
        timeout := if gt == "fallback" then some 5000 else none
        interval := if gt == "fallback" || gt == "url-test" || gt == "load-balance"
          then some 600 else none
        tolerance := if gt == "url-test" then some 500 else none
        strategy := if gt == "load-balance" then some "consistent-hashing" else none } := by
  unfold createCustomProxyGroupConfig
  split_ifs <;> simp_all

theorem createProxyGroupConfig_use (n gt : String) (u : List String) (f url : String) :
    (createProxyGroupConfig n gt u f url).use = if u.isEmpty then none else some u := by
  rw [createProxyGroupConfig_eq]

theorem createProxyGroupConfig_use_getD (n gt : String) (u : List String) (f url : String) :
    ((createProxyGroupConfig n gt u f url).use).getD [] = u := by
  rw [createProxyGroupConfig_use]
  cases u <;> simp

theorem createProxyGroupConfig_proxies (n gt : String) (u : List String) (f url : String) :
    (createProxyGroupConfig n gt u f url).proxies = none := by
  rw [createProxyGroupConfig_eq]

theorem createProxyGroupConfig_name (n gt : String) (u : List String) (f url : String) :
    (createProxyGroupConfig n gt u f url).name = n := by
  rw [createProxyGroupConfig_eq]

theorem createProxyGroupConfig_filter (n gt : String) (u : List String) (f url : String) :
    (createProxyGroupConfig n gt u f url).filter = some f := by
  rw [createProxyGroupConfig_eq]

theorem createProxyGroupConfig_url (n gt : String) (u : List String) (f url : String) :
    (createProxyGroupConfig n gt u f url).url = some url := by
  rw [createProxyGroupConfig_eq]

/-! ## Structure lemmas for the relay factory and the driver -/

theorem generateRelayGroup_none (cfg : Cfg) (providers : List String)
    (regions : List (String × Region)) (h : cfg.relaySec = none) :
    generateRelayGroup cfg providers regions = [] := by
  unfold generateRelayGroup
  rw [h]

theorem generateRelayGroup_fields (cfg : Cfg) (providers : List String)
    (regions : List (String × Region)) (rs : RelaySec)
    (h : cfg.relaySec = some rs)
    (hne : relayDerivedProxies cfg providers regions (relayIncludedRegions rs regions) ≠ []) :
    (generateRelayGroup cfg providers regions).map PG.name = [rs.relayName.getD "统一代理"]
    ∧ (generateRelayGroup cfg providers regions).map PG.proxies
        = [some ((relayProxiesFinal cfg providers regions rs).map some)]
    ∧ (generateRelayGroup cfg providers regions).map PG.use = [none] := by
  unfold generateRelayGroup relayProxiesFinal
  rw [h]
  have hie : (relayDerivedProxies cfg providers regions
      (relayIncludedRegions rs regions)).isEmpty = false := by
    simpa [List.isEmpty_iff] using hne
  simp only [hie, Bool.false_eq_true, if_false]
  split_ifs <;> simp

theorem generateMainProxyGroups_names (cfg : Cfg) (providers : List String)
    (regions : List (String × Region)) (customGroups : List PG)
    (manualSelectGroup : Option PG) :
    (generateMainProxyGroups cfg providers regions customGroups manualSelectGroup).map PG.name
      = declaredMainNames cfg := by
  unfold generateMainProxyGroups declaredMainNames
  rw [List.map_append, List.map_map, List.map_map]
  rfl

theorem generateAllProxyGroups_eq (cfg : Cfg) (rgs : List PG)
    (h : regionFactoryGroups cfg = some rgs) :
    generateAllProxyGroups cfg =
      some (generateRelayGroup cfg cfg.providers cfg.regions
        ++ generateMainProxyGroups cfg cfg.providers cfg.regions
            (generateCustomGroups cfg cfg.providers cfg.regions)
            (generateManualSelectGroup cfg cfg.providers)
        ++ rgs
        ++ (generateCustomGroups cfg cfg.providers cfg.regions).map stripInternal
        ++ match generateManualSelectGroup cfg cfg.providers with
           | some g => [g]
           | none => []) := by
  unfold generateAllProxyGroups
  rw [h]

theorem regionFactory_of_all (cfg : Cfg) (gs : List PG)
    (h : generateAllProxyGroups cfg = some gs) :
    ∃ rgs, regionFactoryGroups cfg = some rgs := by
  unfold generateAllProxyGroups at h
  cases hr : regionFactoryGroups cfg with
  | none => rw [hr] at h; exact absurd h (by simp)
  | some rgs => exact ⟨rgs, rfl⟩

theorem allProxyGroups_names (cfg : Cfg) (gs : List PG)
    (h : generateAllProxyGroups cfg = some gs) :
    gs.map PG.name = factoryNames cfg := by
  obtain ⟨rgs, hr⟩ := regionFactory_of_all cfg gs h
  rw [generateAllProxyGroups_eq cfg rgs hr] at h
  have hgs := (Option.some_inj.mp h).symm
  subst hgs
  rcases hms : generateManualSelectGroup cfg cfg.providers with _ | g <;>
  simp [factoryNames, relayNamesOf, regionFactoryNames, customNamesOf, manualNamesOf,
    generateMainProxyGroups_names, hr, hms, List.map_map, Function.comp, stripInternal]

/-! ## Pin placement in a main group's member list -/

theorem guardedCons_false {x : Option String} {l : List (Option String)} :
    guardedCons false x l = l := by
  unfold guardedCons
  simp

theorem mem_mainRegionPart_ne {cfg : Cfg} {regions : List (String × Region)}
    {regionGroupNames : List String} {groupName : String} {d x : Option String}
    (hx : x ∈ mainRegionPart cfg regions regionGroupNames groupName d) : x ≠ d := by
  unfold mainRegionPart at hx
  split at hx
  · split at hx
    · simp at hx
    · simp only [List.mem_filterMap] at hx
      obtain ⟨rr, _, hn⟩ := hx
      split at hn
      · next hcond =>
        cases hn
        have h2 := (Bool.and_eq_true_iff.mp hcond).2
        simpa using h2
      · exact absurd hn (by simp)
  · simp only [List.mem_filterMap] at hx
    obtain ⟨n, _, hn⟩ := hx
    split at hn
    · next hcond =>
      cases hn
      simpa using hcond
    · exact absurd hn (by simp)

theorem mem_mainCustomPart_ne {customGroups : List PG} {groupName : String}
    {d x : Option String} (hx : x ∈ mainCustomPart customGroups groupName d) : x ≠ d := by
  unfold mainCustomPart at hx
  simp only [List.mem_filterMap] at hx
  obtain ⟨cg, _, hn⟩ := hx
  split at hn
  · next hcond =>
    cases hn
    have h2 := (Bool.and_eq_true_iff.mp hcond).2
    simpa using h2
  · exact absurd hn (by simp)

theorem guardedAppend_pin {c : Bool} {x : Option String} {m : String}
    {l : List (Option String)}
    (hl : ∃ rest, l = some m :: rest ∧ some m ∉ rest)
    (hx : c = true → x ≠ some m) :
    ∃ rest, guardedAppend c x l = some m :: rest ∧ some m ∉ rest := by
  obtain ⟨rest, hleq, hmem⟩ := hl
  subst hleq
  unfold guardedAppend
  split
  · next hcond =>
    have hc : c = true := (Bool.and_eq_true_iff.mp hcond).1
    refine ⟨rest ++ [x], by simp, ?_⟩
    intro hm
    rcases List.mem_append.mp hm with hm | hm
    · exact hmem hm
    · rw [List.mem_singleton] at hm
      exact hx hc hm.symm
  · exact ⟨rest, rfl, hmem⟩

theorem buildMainProxies_pin (cfg : Cfg) (regions : List (String × Region))
    (regionGroupNames : List String) (customGroups : List PG)
    (manualSelectGroup : Option PG) (groupName : String) (m : String) :
    ∃ rest, buildMainProxies cfg regions regionGroupNames customGroups manualSelectGroup
        groupName (some m) = some m :: rest ∧ some m ∉ rest := by
  have hbase :
      mainPinPart (some m)
        ++ mainRegionPart cfg regions regionGroupNames groupName (some m)
        ++ mainCustomPart customGroups groupName (some m)
      = some m :: (mainRegionPart cfg regions regionGroupNames groupName (some m)
        ++ mainCustomPart customGroups groupName (some m)) := by
    simp [mainPinPart]
  have hbm : some m ∉ mainRegionPart cfg regions regionGroupNames groupName (some m)
      ++ mainCustomPart customGroups groupName (some m) := by
    intro hm
    rcases List.mem_append.mp hm with hm | hm
    · exact mem_mainRegionPart_ne hm rfl
    · exact mem_mainCustomPart_ne hm rfl
  simp only [buildMainProxies]
  rw [hbase]
  have hins : guardedCons (some m == relayGroupNameOf cfg) (relayGroupNameOf cfg)
      (some m :: (mainRegionPart cfg regions regionGroupNames groupName (some m)
        ++ mainCustomPart customGroups groupName (some m)))
      = some m :: (mainRegionPart cfg regions regionGroupNames groupName (some m)
        ++ mainCustomPart customGroups groupName (some m)) := by
    by_cases hq : (some m == relayGroupNameOf cfg) = true
    · have hr : relayGroupNameOf cfg = some m := (beq_iff_eq.mp hq).symm
      rw [hr]
      exact guardedCons_of_mem (by simp)
    · rw [Bool.not_eq_true] at hq
      rw [hq]
      exact guardedCons_false
  rw [hins]
  have h1 : ∃ rest, (some m :: (mainRegionPart cfg regions regionGroupNames groupName (some m)
      ++ mainCustomPart customGroups groupName (some m)) : List (Option String))
      = some m :: rest ∧ some m ∉ rest :=
    ⟨_, rfl, hbm⟩
  have h2 : ∃ rest,
      (match relayGroupNameOf cfg with
        | some rn =>
          guardedAppend (rn != "" && some rn != some m && shouldIncludeRelayGroup cfg groupName)
            (some rn)
            (some m :: (mainRegionPart cfg regions regionGroupNames groupName (some m)
              ++ mainCustomPart customGroups groupName (some m)))
        | none => some m :: (mainRegionPart cfg regions regionGroupNames groupName (some m)
            ++ mainCustomPart customGroups groupName (some m)))
      = some m :: rest ∧ some m ∉ rest := by
    rcases relayGroupNameOf cfg with _ | rn
    · exact h1
    · refine guardedAppend_pin h1 ?_
      intro hc
      have ha := (Bool.and_eq_true_iff.mp hc).1
      have hne := (Bool.and_eq_true_iff.mp ha).2
      simpa using hne
  obtain ⟨rest2, h2eq, h2m⟩ := h2
  rw [h2eq]
  have h3 : ∃ rest,
      (match manualSelectGroup with
        | some mg => guardedAppend (some mg.name != some m) (some mg.name) (some m :: rest2)
        | none => some m :: rest2)
      = some m :: rest ∧ some m ∉ rest := by
    rcases manualSelectGroup with _ | mg
    · exact ⟨rest2, rfl, h2m⟩
    · refine guardedAppend_pin ⟨rest2, rfl, h2m⟩ ?_
      intro hc
      simpa using hc
  obtain ⟨rest3, h3eq, h3m⟩ := h3
  rw [h3eq]
  refine guardedAppend_pin ⟨rest3, rfl, h3m⟩ ?_
  intro hc
  simpa using hc

/-! ## Claims -/

/-- C10: for every declared main group with a configured default-node pin, the
pin string is placed at index 0 of that group's proxies unconditionally — the
theorem needs no hypothesis that the pin names an existing provider, an
emitted group, or DIRECT, so the emitted main group may reference a member
that exists nowhere else in the configuration. -/
theorem claimC10_pin_unconditional (cfg : Cfg) (providers : List String)
    (regions : List (String × Region)) (customGroups : List PG)
    (manualSelectGroup : Option PG) (decl : MainGroupDecl) (m : String)
    (hdecl : decl ∈ cfg.mainGroups)
    (hpin : (getProxyDefaults cfg).lookup decl.name = some m) :
    ∃ g ∈ generateMainProxyGroups cfg providers regions customGroups manualSelectGroup,
      g.name = decl.name ∧ ∃ rest, g.proxies = some (some m :: rest) := by
  refine ⟨buildMainGroup cfg regions
      (getRegionGroupNames cfg providers regions cfg.useMergedRegionGroups)
      customGroups manualSelectGroup decl, ?_, rfl, ?_⟩
  · unfold generateMainProxyGroups
    exact List.mem_append_left _ (List.mem_map_of_mem _ hdecl)
  · obtain ⟨rest, heq, _⟩ := buildMainProxies_pin cfg regions
      (getRegionGroupNames cfg providers regions cfg.useMergedRegionGroups)
      customGroups manualSelectGroup decl.name m
    exact ⟨rest, by simp only [buildMainGroup, hpin, heq]⟩

/-- C10 witness: in `cfgGhostPin` the pin `GHOST` names no provider, no
emitted group and is not DIRECT, yet it is at index 0 of `Main`'s proxies. -/
theorem claimC10_witness :
    (⟨"Main", "select"⟩ : MainGroupDecl) ∈ cfgGhostPin.mainGroups
    ∧ (getProxyDefaults cfgGhostPin).lookup "Main" = some "GHOST"
    ∧ "GHOST" ∉ cfgGhostPin.providers
    ∧ "GHOST" ∉ allGroupNames cfgGhostPin
    ∧ "GHOST" ≠ "DIRECT"
    ∧ ∃ g ∈ generateMainProxyGroups cfgGhostPin cfgGhostPin.providers cfgGhostPin.regions
        (generateCustomGroups cfgGhostPin cfgGhostPin.providers cfgGhostPin.regions)
        (generateManualSelectGroup cfgGhostPin cfgGhostPin.providers),
        g.name = "Main" ∧ ∃ rest, g.proxies = some (some "GHOST" :: rest) :=
  ⟨by decide, by decide, by decide, by decide, by decide,
    claimC10_pin_unconditional cfgGhostPin cfgGhostPin.providers cfgGhostPin.regions
      (generateCustomGroups cfgGhostPin cfgGhostPin.providers cfgGhostPin.regions)
      (generateManualSelectGroup cfgGhostPin cfgGhostPin.providers)
      ⟨"Main", "select"⟩ "GHOST" (by decide) (by decide)⟩

/-- C6 (code bug): with a declared main group, no relay section and no default
pin, the comparison `default_node == relay_group_name` at source line 719
holds with both sides Python `None`, so `None` is inserted at index 0 of the
main group's proxies — the emitted member list is
`[None, region group, DIRECT]`, not the claimed `[region group, DIRECT]`. -/
theorem claimC6_none_inserted :
    generateMainProxyGroups cfgNoneInsertion cfgNoneInsertion.providers
        cfgNoneInsertion.regions [] none
      = [{ name := "Proxy", type := "select",
           proxies := some [none, some "🇭🇰HK_A", some "DIRECT"] }]
    ∧ generateAllProxyGroups cfgNoneInsertion
      = some [{ name := "Proxy", type := "select",
                proxies := some [none, some "🇭🇰HK_A", some "DIRECT"] },
              createProxyGroupConfig "🇭🇰HK_A" "url-test" ["A"] "HK"
                "http://connectivitycheck.gstatic.com/generate_204"] :=
  ⟨rfl, rfl⟩

/-- C8: without exclusions the built filter is the include keywords joined by
`|`; with exclusions it is exactly the single negative-lookahead regular
expression `(?!.*(excl|...)).*(inc|...)`; concrete instances of the claimed
shapes and of the intended matching semantics. -/
theorem claimC8_filter (includes excludes : List String) (hne : includes ≠ []) :
    (excludes = [] → buildFilter includes excludes = joinWith "|" includes)
    ∧ (excludes ≠ [] → buildFilter includes excludes
        = "(?!.*(" ++ joinWith "|" excludes ++ ")).*(" ++ joinWith "|" includes ++ ")")
    ∧ buildFilter ["HK", "Hong Kong"] ["TEST"] = "(?!.*(TEST)).*(HK|Hong Kong)"
    ∧ buildFilter ["HK", "Hong Kong"] [] = "HK|Hong Kong"
    ∧ intendedFilterMatch ["A"] ["X"] "A-node" = true
    ∧ intendedFilterMatch ["A"] ["X"] "X-A-node" = false
    ∧ intendedFilterMatch ["A", "B"] [] "node-B" = true := by
  refine ⟨?_, ?_, rfl, rfl, rfl, rfl, rfl⟩
  · intro h
    subst h
    rfl
  · intro h
    cases excludes with
    | nil => exact absurd rfl h
    | cons e es => rfl

/-- C8 witness: the general shapes instantiated at the spec's scenario
keywords. -/
theorem claimC8_witness :
    (["HK", "Hong Kong"] : List String) ≠ []
    ∧ buildFilter ["HK", "Hong Kong"] ["TEST"]
      = "(?!.*(" ++ joinWith "|" ["TEST"] ++ ")).*(" ++ joinWith "|" ["HK", "Hong Kong"] ++ ")"
    ∧ buildFilter ["HK", "Hong Kong"] [] = joinWith "|" ["HK", "Hong Kong"] :=
  ⟨by decide,
    (claimC8_filter ["HK", "Hong Kong"] ["TEST"] (by decide)).2.1 (by decide),
    (claimC8_filter ["HK", "Hong Kong"] [] (by decide)).1 rfl⟩

/-! ## Per-spec skipping in the custom-group factory -/

theorem parseCustomGroup_short (cfg : Cfg) (providers : List String)
    (regions : List (String × Region)) (k v : String)
    (hlen : ((splitOnChar ',' v).map pyStrip).length < 4) :
    parseCustomGroup cfg providers regions k v = none := by
  unfold parseCustomGroup
  generalize (splitOnChar ',' v).map pyStrip = parts at hlen ⊢
  rcases parts with _ | ⟨a, _ | ⟨b, _ | ⟨c, _ | ⟨d, rest⟩⟩⟩⟩
  · rfl
  · rfl
  · rfl
  · rfl
  · simp at hlen
    omega

theorem parseCustomGroup_bad_providers (cfg : Cfg) (providers : List String)
    (regions : List (String × Region)) (k v : String)
    (hne : customSpecField v 2 ≠ "")
    (hsel : (customSpecProviderList v).filter (fun p => providers.contains p) = []) :
    parseCustomGroup cfg providers regions k v = none := by
  unfold parseCustomGroup
  simp only [customSpecProviderList, customSpecField] at hne hsel
  generalize hp : (splitOnChar ',' v).map pyStrip = parts at hne hsel ⊢
  rcases parts with _ | ⟨a, _ | ⟨b, _ | ⟨c, _ | ⟨d, rest⟩⟩⟩⟩
  · rfl
  · rfl
  · rfl
  · rfl
  · have hc : c ≠ "" := by simpa using hne
    have hc2 : (c != "") = true := by simpa using hc
    have hsel2 : (((splitOnChar '|' c).map pyStrip).filter fun p => providers.contains p) = [] := by
      simpa using hsel
    simp only [hc2, if_true, hsel2]
    simp

theorem parseCustomGroup_bad_regions (cfg : Cfg) (providers : List String)
    (regions : List (String × Region)) (k v : String)
    (hkw : customSpecKeywordUnion regions v = []) :
    parseCustomGroup cfg providers regions k v = none := by
  unfold parseCustomGroup
  simp only [customSpecKeywordUnion, customSpecField] at hkw
  generalize hp : (splitOnChar ',' v).map pyStrip = parts at hkw ⊢
  rcases parts with _ | ⟨a, _ | ⟨b, _ | ⟨c, _ | ⟨d, rest⟩⟩⟩⟩
  · rfl
  · rfl
  · rfl
  · rfl
  · have hkw2 : (((splitOnChar '|' d).map pyStrip).flatMap fun rn =>
        match regions.lookup rn with
        | some rc => rc.keywords
        | none => []) = [] := by simpa using hkw
    dsimp only
    rw [hkw2]
    simp

/-- C9: a malformed custom-group spec — fewer than four comma fields, a
provider field with no valid provider, or a region field resolving to no
keyword — is skipped, and removing such a spec from the spec list leaves the
output of the remaining specs unchanged; the embedded factory is a total
function, so no exception reaches the driver (the Python loop body's indexing
is fully guarded, and its `try/except` skips a spec on any error). -/
theorem claimC9_spec_isolation :
    (∀ (cfg : Cfg) (providers : List String) (regions : List (String × Region))
        (xs ys : List (String × String)) (k v : String),
      parseCustomGroup cfg providers regions k v = none →
      generateCustomGroupsFrom cfg providers regions (xs ++ (k, v) :: ys)
        = generateCustomGroupsFrom cfg providers regions (xs ++ ys))
    ∧ (∀ (cfg : Cfg) (providers : List String) (regions : List (String × Region)) (k v : String),
        ((splitOnChar ',' v).map pyStrip).length < 4 →
        parseCustomGroup cfg providers regions k v = none)
    ∧ (∀ (cfg : Cfg) (providers : List String) (regions : List (String × Region)) (k v : String),
        customSpecField v 2 ≠ "" →
        (customSpecProviderList v).filter (fun p => providers.contains p) = [] →
        parseCustomGroup cfg providers regions k v = none)
    ∧ (∀ (cfg : Cfg) (providers : List String) (regions : List (String × Region)) (k v : String),
        customSpecKeywordUnion regions v = [] →
        parseCustomGroup cfg providers regions k v = none) := by
  refine ⟨?_, parseCustomGroup_short, parseCustomGroup_bad_providers, parseCustomGroup_bad_regions⟩
  intro cfg providers regions xs ys k v h
  simp [generateCustomGroupsFrom, List.filterMap_append, List.filterMap_cons, h]

/-- C9 witness: the malformed spec `x,y` (two fields) is skipped and the
well-formed neighbour is processed unchanged. -/
theorem claimC9_witness :
    parseCustomGroup cfgCustomSpecs cfgCustomSpecs.providers cfgCustomSpecs.regions
        "Bad1" "x,y" = none
    ∧ generateCustomGroupsFrom cfgCustomSpecs cfgCustomSpecs.providers cfgCustomSpecs.regions
        ([] ++ ("Bad1", "x,y") :: [("Good", "G,select,A|B,HK,")])
      = generateCustomGroupsFrom cfgCustomSpecs cfgCustomSpecs.providers cfgCustomSpecs.regions
        ([] ++ [("Good", "G,select,A|B,HK,")]) :=
  ⟨rfl, claimC9_spec_isolation.1 cfgCustomSpecs cfgCustomSpecs.providers cfgCustomSpecs.regions
    [] [("Good", "G,select,A|B,HK,")] "Bad1" "x,y" rfl⟩

/-- C2 counterexample: the relay's configured default node `X` is absent from
the derived member list, and the emitted relay proxies are unchanged — `X` is
not prepended at index 0, contrary to the claim. -/
theorem claimC2_counterexample :
    (getProxyDefaults cfgRelayAbsentPin).lookup "Relay" = some "X"
    ∧ (generateRelayGroup cfgRelayAbsentPin cfgRelayAbsentPin.providers
        cfgRelayAbsentPin.regions).map PG.proxies = [some [some "🇭🇰HK_A"]]
    ∧ some "X" ∉ ([some "🇭🇰HK_A"] : List (Option String)) :=
  ⟨rfl, rfl, by decide⟩

/-- C2 (amended): for every main group with a configured pin M, M is at index
0 of the emitted proxies and appears nowhere else, whether or not M occurs in
the derived candidates.  For the relay group: when M occurs in the derived
(duplicate-free) member list it is moved to index 0 and appears nowhere else;
when M is absent the relay's member list is emitted unchanged — the pin is
skipped with a warning, not prepended. -/
theorem claimC2_amended :
    (∀ (cfg : Cfg) (providers : List String) (regions : List (String × Region))
        (customGroups : List PG) (manualSelectGroup : Option PG) (decl : MainGroupDecl)
        (m : String),
      decl ∈ cfg.mainGroups →
      (getProxyDefaults cfg).lookup decl.name = some m →
      ∃ g ∈ generateMainProxyGroups cfg providers regions customGroups manualSelectGroup,
        g.name = decl.name ∧ ∃ rest, g.proxies = some (some m :: rest) ∧ some m ∉ rest)
    ∧ (∀ (cfg : Cfg) (providers : List String) (regions : List (String × Region))
        (rs : RelaySec) (m : String),
      cfg.relaySec = some rs →
      (getProxyDefaults cfg).lookup (rs.relayName.getD "统一代理") = some m →
      (relayDerivedProxies cfg providers regions (relayIncludedRegions rs regions)).Nodup →
      m ∈ relayDerivedProxies cfg providers regions (relayIncludedRegions rs regions) →
      ∃ rest, (generateRelayGroup cfg providers regions).map PG.proxies
          = [some (some m :: rest)] ∧ some m ∉ rest)
    ∧ (∀ (cfg : Cfg) (providers : List String) (regions : List (String × Region))
        (rs : RelaySec) (m : String),
      cfg.relaySec = some rs →
      (getProxyDefaults cfg).lookup (rs.relayName.getD "统一代理") = some m →
      relayDerivedProxies cfg providers regions (relayIncludedRegions rs regions) ≠ [] →
      m ∉ relayDerivedProxies cfg providers regions (relayIncludedRegions rs regions) →
      (generateRelayGroup cfg providers regions).map PG.proxies
        = [some ((relayDerivedProxies cfg providers regions
            (relayIncludedRegions rs regions)).map some)]) := by
  refine ⟨?_, ?_, ?_⟩
  · intro cfg providers regions customGroups manualSelectGroup decl m hdecl hpin
    refine ⟨buildMainGroup cfg regions
        (getRegionGroupNames cfg providers regions cfg.useMergedRegionGroups)
        customGroups manualSelectGroup decl, ?_, rfl, ?_⟩
    · unfold generateMainProxyGroups
      exact List.mem_append_left _ (List.mem_map_of_mem _ hdecl)
    · obtain ⟨rest, heq, hm⟩ := buildMainProxies_pin cfg regions
        (getRegionGroupNames cfg providers regions cfg.useMergedRegionGroups)
        customGroups manualSelectGroup decl.name m
      exact ⟨rest, by simp only [buildMainGroup, hpin, heq], hm⟩
  · intro cfg providers regions rs m hrs hpin hnd hmem
    have hne : relayDerivedProxies cfg providers regions (relayIncludedRegions rs regions) ≠ [] :=
      List.ne_nil_of_mem hmem
    obtain ⟨-, hpx, -⟩ := generateRelayGroup_fields cfg providers regions rs hrs hne
    refine ⟨((relayDerivedProxies cfg providers regions
        (relayIncludedRegions rs regions)).erase m).map some, ?_, ?_⟩
    · rw [hpx]
      have hcont : (relayDerivedProxies cfg providers regions
          (relayIncludedRegions rs regions)).contains m = true := by
        simpa using hmem
      have hfinal : relayProxiesFinal cfg providers regions rs
          = m :: (relayDerivedProxies cfg providers regions
              (relayIncludedRegions rs regions)).erase m := by
        simp only [relayProxiesFinal, hpin]
        simp [hcont]
        intro h
        exact absurd hmem h
      rw [hfinal]
      simp
    · intro hmm
      have hin : m ∈ (relayDerivedProxies cfg providers regions
          (relayIncludedRegions rs regions)).erase m := by
        simpa using hmm
      exact hnd.not_mem_erase hin
  · intro cfg providers regions rs m hrs hpin hne hnm
    obtain ⟨-, hpx, -⟩ := generateRelayGroup_fields cfg providers regions rs hrs hne
    rw [hpx]
    have hcont : (relayDerivedProxies cfg providers regions
        (relayIncludedRegions rs regions)).contains m = false := by
      simpa using hnm
    have hfinal : relayProxiesFinal cfg providers regions rs
        = relayDerivedProxies cfg providers regions (relayIncludedRegions rs regions) := by
      simp only [relayProxiesFinal, hpin]
      simp [hcont]
      intro h
      exact absurd h hnm
    rw [hfinal]

/-- C2 witness: in `cfgRelayPresentPin`, main group `Main` is pinned to
`🇭🇰HK_A` (at index 0, nowhere else) and the relay is pinned to `🇭🇰HK_B`,
which is present in the derived list and moved to index 0. -/
theorem claimC2_witness :
    (∃ g ∈ generateMainProxyGroups cfgRelayPresentPin cfgRelayPresentPin.providers
        cfgRelayPresentPin.regions [] none,
      g.name = "Main"
        ∧ ∃ rest, g.proxies = some (some "🇭🇰HK_A" :: rest) ∧ some "🇭🇰HK_A" ∉ rest)
    ∧ ∃ rest, (generateRelayGroup cfgRelayPresentPin cfgRelayPresentPin.providers
          cfgRelayPresentPin.regions).map PG.proxies = [some (some "🇭🇰HK_B" :: rest)]
        ∧ some "🇭🇰HK_B" ∉ rest :=
  ⟨claimC2_amended.1 cfgRelayPresentPin cfgRelayPresentPin.providers cfgRelayPresentPin.regions
      [] none ⟨"Main", "select"⟩ "🇭🇰HK_A" (by decide) (by decide),
    claimC2_amended.2.1 cfgRelayPresentPin cfgRelayPresentPin.providers cfgRelayPresentPin.regions
      ⟨some "Relay", some "select", none⟩ "🇭🇰HK_B" rfl (by decide) (by decide) (by decide)⟩

/-- C1 counterexample: a main group declared with name `HK_A` collides with
the region group `HK_A` (emoji `""`), and the final output contains the name
twice — no cross-factory deduplication exists. -/
theorem claimC1_counterexample : ¬ (allGroupNames cfgNameClash).Nodup := by
  decide

/-- C1 (amended): the final output's names are exactly the factory-derived
names in concatenation order (relay, declared main/special, region, custom,
manual-select), so no two emitted group names are equal whenever those
factory-derived names are pairwise distinct; the code performs no
deduplication, and inputs whose factory names collide produce duplicates. -/
theorem claimC1_amended (cfg : Cfg) (gs : List PG)
    (hgen : generateAllProxyGroups cfg = some gs)
    (hnd : (factoryNames cfg).Nodup) :
    (gs.map PG.name).Nodup := by
  rw [allProxyGroups_names cfg gs hgen]
  exact hnd

/-- C1 witness: on `cfgGhostPin` the factory names are pairwise distinct and
the emitted names are duplicate-free. -/
theorem claimC1_witness :
    (factoryNames cfgGhostPin).Nodup
    ∧ (((generateAllProxyGroups cfgGhostPin).getD []).map PG.name).Nodup :=
  ⟨by decide,
    claimC1_amended cfgGhostPin ((generateAllProxyGroups cfgGhostPin).getD []) rfl (by decide)⟩

/-- C7: with `merged_regions=false` and every region's keywords non-empty
(the loader's construction contract), the region factory output is exactly
one group per (provider, region) pair not excluded by the region-restriction,
provider-major then region-minor, with the spec's name/type/use/filter/url
and tuning fields (`specPerProviderRegionGroups`); and on the spec's scenario
it emits exactly `🇭🇰HK_A` (`use=[A]`) then `🇭🇰HK_B` (`use=[B]`), each with
filter `HK|Hong Kong`. -/
theorem claimC7_per_provider_mode :
    (∀ (cfg : Cfg) (providers : List String) (regions : List (String × Region)),
      (∀ rr ∈ regions, rr.2.keywords ≠ []) →
      generateAutoGroups cfg providers regions = specPerProviderRegionGroups cfg providers regions)
    ∧ generateAutoGroups cfgScenario cfgScenario.providers cfgScenario.regions
      = [{ name := "🇭🇰HK_A", type := "url-test", use := some ["A"],
           filter := some "HK|Hong Kong",
           url := some "http://connectivitycheck.gstatic.com/generate_204",
           tolerance := some 500, interval := some 600 },
         { name := "🇭🇰HK_B", type := "url-test", use := some ["B"],
           filter := some "HK|Hong Kong",
           url := some "http://connectivitycheck.gstatic.com/generate_204",
           tolerance := some 500, interval := some 600 }] := by
  refine ⟨?_, rfl⟩
  intro cfg providers regions hkw
  unfold generateAutoGroups specPerProviderRegionGroups
  dsimp only
  refine List.flatMap_congr ?_
  intro p hp
  refine List.filterMap_congr ?_
  intro rr hrr
  have hk : rr.2.keywords ≠ [] := hkw rr hrr
  have hke : rr.2.keywords.isEmpty = false := by simpa [List.isEmpty_iff] using hk
  by_cases hskip : (((getRegionProvidersConfig cfg providers).lookup rr.1).isSome
      && !((((getRegionProvidersConfig cfg providers).lookup rr.1).getD []).contains p)) = true
  · rw [if_pos hskip, if_pos hskip]
  · rw [if_neg hskip, if_neg hskip]
    rw [if_neg (by simp [hke] : ¬ rr.2.keywords.isEmpty = true)]
    rw [createProxyGroupConfig_eq]
    simp [specRegionGroup]

/-- C7 witness: the general characterization instantiated on the scenario
input, whose regions all have non-empty keywords. -/
theorem claimC7_witness :
    (cfgScenario.regions.all fun rr => !rr.2.keywords.isEmpty) = true
    ∧ generateAutoGroups cfgScenario cfgScenario.providers cfgScenario.regions
      = specPerProviderRegionGroups cfgScenario cfgScenario.providers cfgScenario.regions :=
  ⟨by decide,
    claimC7_per_provider_mode.1 cfgScenario cfgScenario.providers cfgScenario.regions (by decide)⟩

/-! ## Merged-mode analysis -/

theorem mergedLoop_clean (cfg : Cfg) (providers : List String) :
    ∀ (regions : List (String × Region)) (acc : List PG) (lastFilter : Option String),
      (∀ rr ∈ regions, rr.2.keywords ≠ []) →
      mergedLoop cfg providers regions acc lastFilter
        = some (acc ++ mergedRegionGroupsClean cfg providers regions)
  | [], acc, lastFilter, _ => by simp [mergedLoop, mergedRegionGroupsClean]
  | rr :: rest, acc, lastFilter, hkw => by
    have hk : rr.2.keywords ≠ [] := hkw rr (by simp)
    have hke : rr.2.keywords.isEmpty = false := by simpa [List.isEmpty_iff] using hk
    have hrest : ∀ x ∈ rest, x.2.keywords ≠ [] := fun x hx => hkw x (List.mem_cons_of_mem _ hx)
    unfold mergedLoop mergedRegionGroupsClean
    cases hsel : mergedSel cfg providers rr with
    | none =>
      rw [List.filterMap_cons]
      simp only [hsel]
      exact mergedLoop_clean cfg providers rest acc lastFilter hrest
    | some sel =>
      rw [List.filterMap_cons]
      simp only [hsel, hke, Bool.false_eq_true, if_false]
      rw [mergedLoop_clean cfg providers rest _ _ hrest]
      simp [mergedRegionGroupsClean]

theorem usedProviders_cons (g : PG) (gs : List PG) :
    usedProviders (g :: gs) = g.use.getD [] ++ usedProviders gs := rfl

theorem usedProviders_mergedClean (cfg : Cfg) (providers : List String) :
    ∀ regions : List (String × Region),
      usedProviders (mergedRegionGroupsClean cfg providers regions)
        = regions.flatMap fun rr => (mergedSel cfg providers rr).getD []
  | [] => rfl
  | rr :: rest => by
    unfold mergedRegionGroupsClean
    rw [List.filterMap_cons, List.flatMap_cons]
    cases hsel : mergedSel cfg providers rr with
    | none =>
      simpa using usedProviders_mergedClean cfg providers rest
    | some sel =>
      rw [usedProviders_cons, createProxyGroupConfig_use_getD]
      have hih := usedProviders_mergedClean cfg providers rest
      unfold mergedRegionGroupsClean at hih
      rw [hih]
      simp

theorem flatMap_filterMap {α β γ : Type} (f : α → Option β) (g : β → List γ) :
    ∀ l : List α,
      (l.filterMap f).flatMap g = l.flatMap fun a => ((f a).map g).getD []
  | [] => rfl
  | a :: rest => by
    rw [List.filterMap_cons, List.flatMap_cons]
    cases hf : f a with
    | none => simpa using flatMap_filterMap f g rest
    | some b =>
      rw [List.flatMap_cons, flatMap_filterMap f g rest]
      simp

theorem usedProviders_auto (cfg : Cfg) (providers : List String)
    (regions : List (String × Region)) :
    usedProviders (generateAutoGroups cfg providers regions)
      = providers.flatMap fun p => regions.flatMap fun rr =>
          if (((getRegionProvidersConfig cfg providers).lookup rr.1).isSome
              && !((((getRegionProvidersConfig cfg providers).lookup rr.1).getD []).contains p))
            || rr.2.keywords.isEmpty then []
          else [p] := by
  unfold usedProviders generateAutoGroups
  dsimp only
  rw [List.flatMap_assoc]
  refine List.flatMap_congr ?_
  intro p hp
  rw [flatMap_filterMap]
  refine List.flatMap_congr ?_
  intro rr hrr
  by_cases hskip : (((getRegionProvidersConfig cfg providers).lookup rr.1).isSome
      && !((((getRegionProvidersConfig cfg providers).lookup rr.1).getD []).contains p)) = true
  · have hor : ((((getRegionProvidersConfig cfg providers).lookup rr.1).isSome
        && !((((getRegionProvidersConfig cfg providers).lookup rr.1).getD []).contains p))
        || rr.2.keywords.isEmpty) = true := by
      rw [hskip]
      simp
    rw [if_pos hskip, if_pos hor]
    simp
  · by_cases hke : rr.2.keywords.isEmpty = true
    · have hor : ((((getRegionProvidersConfig cfg providers).lookup rr.1).isSome
          && !((((getRegionProvidersConfig cfg providers).lookup rr.1).getD []).contains p))
          || rr.2.keywords.isEmpty) = true := by
        rw [hke]
        simp
      rw [if_neg hskip, if_pos hke, if_pos hor]
      simp
    · have hor : ¬ (((((getRegionProvidersConfig cfg providers).lookup rr.1).isSome
          && !((((getRegionProvidersConfig cfg providers).lookup rr.1).getD []).contains p))
          || rr.2.keywords.isEmpty) = true) := by
        rw [Bool.not_eq_true] at hskip hke
        rw [hskip, hke]
        simp
      rw [if_neg hskip, if_neg hke, if_neg hor]
      simp [createProxyGroupConfig_use_getD]

theorem getRegionProvidersConfig_lookup_of (cfg : Cfg) (providers : List String)
    (hres : ∀ kv ∈ rawRegionProviders cfg,
      kv.2.filter (fun p => providers.contains p) ≠ []) (r : String) :
    (getRegionProvidersConfig cfg providers).lookup r
      = ((rawRegionProviders cfg).lookup r).map
          fun lst => providers.filter fun p => lst.contains p := by
  unfold getRegionProvidersConfig
  rw [List.filter_eq_self.mpr]
  · exact @lookup_map_value (List String) (List String)
      (fun lst => providers.filter fun p => lst.contains p) r (rawRegionProviders cfg)
  · intro kv hkv
    rcases List.mem_map.mp hkv with ⟨kv0, hkv0, hkve⟩
    have h := hres kv0 hkv0
    have hx : ∃ x ∈ kv0.2, providers.contains x = true := by
      by_contra hno
      push_neg at hno
      exact h (List.filter_eq_nil_iff.mpr (by simpa using hno))
    rcases hx with ⟨x, hxin, hxp⟩
    have hxmem : x ∈ providers := by simpa using hxp
    have hxf : x ∈ providers.filter fun p => kv0.2.contains p :=
      List.mem_filter.mpr ⟨hxmem, by simpa using hxin⟩
    have hne : providers.filter (fun p => kv0.2.contains p) ≠ [] :=
      List.ne_nil_of_mem hxf
    rw [← hkve]
    simpa [List.isEmpty_iff] using hne

/-- C4 counterexample: with providers `{A}`, region `HK`, and a
region-restriction naming only the unknown provider `B`, per-provider mode
still emits a group referencing `A` (the region is absent from the filtered
restriction map), while merged mode skips the region entirely — the
referenced provider sets differ. -/
theorem claimC4_counterexample :
    "A" ∈ usedProviders (generateAutoGroups cfgUnknownRestriction
      cfgUnknownRestriction.providers cfgUnknownRestriction.regions)
    ∧ (generateMergedRegionGroups cfgUnknownRestriction cfgUnknownRestriction.providers
        cfgUnknownRestriction.regions).elim [] usedProviders = [] :=
  ⟨by decide, rfl⟩

/-- C4 (amended): when every region's keywords are non-empty and every
region-restriction entry names at least one known provider, merged mode
produces its clean output and the provider set referenced by `use` fields
across merged region groups equals the one referenced across per-provider
region groups. -/
theorem claimC4_amended (cfg : Cfg) (providers : List String)
    (regions : List (String × Region))
    (hkw : ∀ rr ∈ regions, rr.2.keywords ≠ [])
    (hres : ∀ kv ∈ rawRegionProviders cfg,
      kv.2.filter (fun p => providers.contains p) ≠ []) :
    generateMergedRegionGroups cfg providers regions
      = some (mergedRegionGroupsClean cfg providers regions)
    ∧ ∀ q, q ∈ usedProviders (mergedRegionGroupsClean cfg providers regions)
        ↔ q ∈ usedProviders (generateAutoGroups cfg providers regions) := by
  refine ⟨by simpa using mergedLoop_clean cfg providers regions [] none hkw, ?_⟩
  intro q
  rw [usedProviders_mergedClean, usedProviders_auto]
  have key : ∀ rr ∈ regions,
      q ∈ (mergedSel cfg providers rr).getD []
        ↔ q ∈ providers ∧ ¬((((getRegionProvidersConfig cfg providers).lookup rr.1).isSome
            && !((((getRegionProvidersConfig cfg providers).lookup rr.1).getD []).contains q))
            || rr.2.keywords.isEmpty) = true := by
    intro rr hrr
    have hke : rr.2.keywords.isEmpty = false := by simpa [List.isEmpty_iff] using hkw rr hrr
    rw [getRegionProvidersConfig_lookup_of cfg providers hres rr.1]
    unfold mergedSel
    cases hraw : (rawRegionProviders cfg).lookup rr.1 with
    | none => simp [hke]
    | some lst =>
      have hmem0 : (rr.1, lst) ∈ rawRegionProviders cfg := lookup_mem hraw
      have hne := hres _ hmem0
      have hie : (lst.filter fun p => providers.contains p).isEmpty = false := by
        simpa [List.isEmpty_iff] using hne
      simp only [hie, Bool.false_eq_true, if_false]
      simp [hke, List.mem_filter, and_comm]
  constructor
  · intro hq
    rcases List.mem_flatMap.mp hq with ⟨rr, hrr, hsel⟩
    rcases (key rr hrr).mp hsel with ⟨hqp, hc⟩
    refine List.mem_flatMap.mpr ⟨q, hqp, List.mem_flatMap.mpr ⟨rr, hrr, ?_⟩⟩
    rw [if_neg hc]
    simp
  · intro hq
    rcases List.mem_flatMap.mp hq with ⟨p, hp, hin⟩
    rcases List.mem_flatMap.mp hin with ⟨rr, hrr, hm⟩
    by_cases hc : ((((getRegionProvidersConfig cfg providers).lookup rr.1).isSome
        && !((((getRegionProvidersConfig cfg providers).lookup rr.1).getD []).contains p))
        || rr.2.keywords.isEmpty) = true
    · rw [if_pos hc] at hm
      simp at hm
    · rw [if_neg hc] at hm
      rw [List.mem_singleton] at hm
      subst hm
      exact List.mem_flatMap.mpr ⟨rr, hrr, (key rr hrr).mpr ⟨hp, hc⟩⟩

/-- C4 witness: the equivalence instantiated on a configuration whose only
restriction entry names a known provider. -/
theorem claimC4_witness :
    (cfgRestricted.regions.all fun rr => !rr.2.keywords.isEmpty) = true
    ∧ ((rawRegionProviders cfgRestricted).all
        fun kv => !(kv.2.filter fun p => cfgRestricted.providers.contains p).isEmpty) = true
    ∧ generateMergedRegionGroups cfgRestricted cfgRestricted.providers cfgRestricted.regions
      = some (mergedRegionGroupsClean cfgRestricted cfgRestricted.providers cfgRestricted.regions)
    ∧ ("A" ∈ usedProviders (mergedRegionGroupsClean cfgRestricted cfgRestricted.providers
          cfgRestricted.regions)
        ↔ "A" ∈ usedProviders (generateAutoGroups cfgRestricted cfgRestricted.providers
          cfgRestricted.regions)) :=
  ⟨by decide, by decide,
    (claimC4_amended cfgRestricted cfgRestricted.providers cfgRestricted.regions
      (by decide) (by decide)).1,
    (claimC4_amended cfgRestricted cfgRestricted.providers cfgRestricted.regions
      (by decide) (by decide)).2 "A"⟩

/-! ## Shapes of the factory outputs -/

theorem mem_relay_shape {cfg : Cfg} {providers : List String}
    {regions : List (String × Region)} {g : PG}
    (hg : g ∈ generateRelayGroup cfg providers regions) :
    g.use = none ∧ g.proxies.isSome = true ∧ g.targetGroups = none := by
  unfold generateRelayGroup at hg
  split at hg
  · exact absurd hg (by simp)
  · dsimp only at hg
    split at hg
    · exact absurd hg (by simp)
    · rw [List.mem_singleton] at hg
      subst hg
      split_ifs <;> simp

theorem mem_mains_shape {cfg : Cfg} {providers : List String}
    {regions : List (String × Region)} {customGroups : List PG}
    {manualSelectGroup : Option PG} {g : PG}
    (hg : g ∈ generateMainProxyGroups cfg providers regions customGroups manualSelectGroup) :
    g.use = none ∧ g.proxies.isSome = true ∧ g.targetGroups = none := by
  unfold generateMainProxyGroups at hg
  rcases List.mem_append.mp hg with hm | hm
  · rcases List.mem_map.mp hm with ⟨decl, _, hd⟩
    subst hd
    exact ⟨rfl, rfl, rfl⟩
  · rcases List.mem_map.mp hm with ⟨sg, _, hd⟩
    subst hd
    exact ⟨rfl, rfl, rfl⟩

theorem mem_auto_shape {cfg : Cfg} {providers : List String}
    {regions : List (String × Region)} {g : PG}
    (hg : g ∈ generateAutoGroups cfg providers regions) :
    ∃ (p : String) (rr : String × Region), g = createProxyGroupConfig (rr.2.emoji ++ rr.1 ++ "_" ++ p)
      ((cfg.groupTypeOverrides.lookup rr.1).getD (cfg.defaultGroupType.getD "url-test")) [p]
      (buildFilter rr.2.keywords (getExcludeKeywords cfg)) (getTestUrl cfg) := by
  unfold generateAutoGroups at hg
  dsimp only at hg
  rcases List.mem_flatMap.mp hg with ⟨p, hp, hin⟩
  rcases List.mem_filterMap.mp hin with ⟨rr, hrr, hn⟩
  split at hn
  · exact absurd hn (by simp)
  · split at hn
    · exact absurd hn (by simp)
    · cases hn
      exact ⟨p, rr, rfl⟩

theorem mergedLoop_mem {cfg : Cfg} {providers : List String} :
    ∀ {regions : List (String × Region)} {acc out : List PG} {lastFilter : Option String},
      mergedLoop cfg providers regions acc lastFilter = some out →
      ∀ g ∈ out, g ∈ acc ∨ ∃ rr sel fr, mergedSel cfg providers rr = some sel
        ∧ g = createProxyGroupConfig (rr.2.emoji ++ rr.1) (mergedTypeOf cfg rr) sel fr
            (getTestUrl cfg) := by
  intro regions
  induction regions with
  | nil =>
    intro acc out lastFilter h g hg
    unfold mergedLoop at h
    cases h
    exact Or.inl hg
  | cons rr rest ih =>
    intro acc out lastFilter h g hg
    unfold mergedLoop at h
    rcases hsel : mergedSel cfg providers rr with _ | sel <;> rw [hsel] at h
    · exact ih h g hg
    · rcases hf : (if rr.2.keywords.isEmpty = true then lastFilter
          else some (buildFilter rr.2.keywords (getExcludeKeywords cfg))) with _ | fr <;>
        rw [hf] at h
      · exact absurd h (by simp)
      · rcases ih h g hg with hacc | hrest
        · rcases List.mem_append.mp hacc with ha | hnew
          · exact Or.inl ha
          · rw [List.mem_singleton] at hnew
            exact Or.inr ⟨rr, sel, fr, hsel, hnew⟩
        · exact Or.inr hrest

theorem parseCustomGroup_some_shape {cfg : Cfg} {providers : List String}
    {regions : List (String × Region)} {k v : String} {g : PG}
    (h : parseCustomGroup cfg providers regions k v = some g) :
    g.proxies = none ∧ g.filter.isSome = true ∧ g.url.isSome = true
    ∧ ∃ sel, g.use = some sel
      ∧ (sel = (customSpecProviderList v).filter (fun p => providers.contains p)
          ∨ sel = providers) := by
  have horig := h
  unfold parseCustomGroup at h
  generalize hp : (splitOnChar ',' v).map pyStrip = parts at h
  rcases parts with _ | ⟨a, _ | ⟨b, _ | ⟨c, _ | ⟨d, rest⟩⟩⟩⟩
  · exact absurd h (by simp)
  · exact absurd h (by simp)
  · exact absurd h (by simp)
  · exact absurd h (by simp)
  · have hps : customSpecProviderList v = (splitOnChar '|' c).map pyStrip := by
      simp [customSpecProviderList, customSpecField, hp]
    by_cases hc : (c != "") = true
    · by_cases hemp : (((splitOnChar '|' c).map pyStrip).filter
          fun p => providers.contains p).isEmpty = true
      · have hnone := parseCustomGroup_bad_providers cfg providers regions k v
          (by simp [customSpecField, hp]; simpa using hc)
          (by rw [hps]; simpa [List.isEmpty_iff] using hemp)
        rw [horig] at hnone
        exact absurd hnone (by simp)
      · dsimp only at h
        rw [Bool.not_eq_true] at hemp
        simp only [hc, if_true, hemp, Bool.and_false, Bool.false_eq_true, if_false] at h
        split at h
        · split at h
          · exact absurd h (by simp)
          · rw [Option.some_inj] at h
            subst h
            refine ⟨?_, ?_, ?_, ((splitOnChar '|' c).map pyStrip).filter
                (fun p => providers.contains p), rfl, Or.inl (by rw [hps])⟩
            · rw [show ∀ (g0 : PG) (u : Option (List String)) (t : Option (List String)),
                  ({ g0 with use := u, targetGroups := t } : PG).proxies = g0.proxies
                  from fun g0 u t => rfl]
              rw [createCustomProxyGroupConfig_eq]
            · rw [show ∀ (g0 : PG) (u : Option (List String)) (t : Option (List String)),
                  ({ g0 with use := u, targetGroups := t } : PG).filter = g0.filter
                  from fun g0 u t => rfl]
              rw [createCustomProxyGroupConfig_eq]
              rfl
            · rw [show ∀ (g0 : PG) (u : Option (List String)) (t : Option (List String)),
                  ({ g0 with use := u, targetGroups := t } : PG).url = g0.url
                  from fun g0 u t => rfl]
              rw [createCustomProxyGroupConfig_eq]
              rfl
        · exact absurd h (by simp)
    · dsimp only at h
      rw [Bool.not_eq_true] at hc
      simp only [hc, Bool.false_eq_true, if_false, Bool.false_and] at h
      split at h
      · split at h
        · exact absurd h (by simp)
        · rw [Option.some_inj] at h
          subst h
          refine ⟨?_, ?_, ?_, providers, rfl, Or.inr rfl⟩
          · rw [show ∀ (g0 : PG) (u : Option (List String)) (t : Option (List String)),
                ({ g0 with use := u, targetGroups := t } : PG).proxies = g0.proxies
                from fun g0 u t => rfl]
            rw [createCustomProxyGroupConfig_eq]
          · rw [show ∀ (g0 : PG) (u : Option (List String)) (t : Option (List String)),
                ({ g0 with use := u, targetGroups := t } : PG).filter = g0.filter
                from fun g0 u t => rfl]
            rw [createCustomProxyGroupConfig_eq]
            rfl
          · rw [show ∀ (g0 : PG) (u : Option (List String)) (t : Option (List String)),
                ({ g0 with use := u, targetGroups := t } : PG).url = g0.url
                from fun g0 u t => rfl]
            rw [createCustomProxyGroupConfig_eq]
            rfl
      · exact absurd h (by simp)

theorem manualSelect_some_shape {cfg : Cfg} {providers : List String} {g : PG}
    (h : generateManualSelectGroup cfg providers = some g) :
    g.use = some providers ∧ g.filter = none ∧ g.url = none ∧ g.proxies = none := by
  unfold generateManualSelectGroup at h
  split at h
  · exact absurd h (by simp)
  · split at h
    · exact absurd h (by simp)
    · rw [Option.some_inj] at h
      subst h
      exact ⟨rfl, rfl, rfl, rfl⟩


/-- C5 counterexample: with the manual-select factory enabled, the emitted
manual-select group carries `use` but neither `filter` nor `url`. -/
theorem claimC5_counterexample :
    (generateAllProxyGroups cfgManualOn).elim false
      (fun gs => gs.any fun g => g.use.isSome && g.filter.isNone && g.url.isNone) = true := by
  decide

/-- C5 (amended): every emitted group carries `name` and `type` (record
fields); no emitted group carries both `use` and `proxies`; and every emitted
group that carries `use` also carries `filter` and `url` — except the
manual-select group, which carries `use` with neither `filter` nor `url`. -/
theorem claimC5_amended (cfg : Cfg) (gs : List PG)
    (hgen : generateAllProxyGroups cfg = some gs) :
    ∀ g ∈ gs, ¬(g.use.isSome = true ∧ g.proxies.isSome = true)
      ∧ (g.use.isSome = true →
          (g.filter.isSome = true ∧ g.url.isSome = true)
          ∨ generateManualSelectGroup cfg cfg.providers = some g) := by
  obtain ⟨rgs, hr⟩ := regionFactory_of_all cfg gs hgen
  rw [generateAllProxyGroups_eq cfg rgs hr] at hgen
  have hgs := (Option.some_inj.mp hgen).symm
  subst hgs
  intro g hg
  rcases List.mem_append.mp hg with hg | hmanual
  · rcases List.mem_append.mp hg with hg | hcust
    · rcases List.mem_append.mp hg with hg | hregion
      · rcases List.mem_append.mp hg with hrelay | hmain
        · obtain ⟨hu, hp, -⟩ := mem_relay_shape hrelay
          refine ⟨?_, ?_⟩
          · rintro ⟨hus, -⟩
            rw [hu] at hus
            simp at hus
          · intro hus
            rw [hu] at hus
            simp at hus
        · obtain ⟨hu, hp, -⟩ := mem_mains_shape hmain
          refine ⟨?_, ?_⟩
          · rintro ⟨hus, -⟩
            rw [hu] at hus
            simp at hus
          · intro hus
            rw [hu] at hus
            simp at hus
      · have hshape : ∃ (n t : String) (u : List String) (f u2 : String),
            g = createProxyGroupConfig n t u f u2 := by
          unfold regionFactoryGroups at hr
          split at hr
          · rcases mergedLoop_mem hr g hregion with habs | ⟨rr, sel, fr, -, hgc⟩
            · exact absurd habs (by simp)
            · exact ⟨_, _, _, _, _, hgc⟩
          · have hauto := Option.some_inj.mp hr
            rw [← hauto] at hregion
            obtain ⟨p, rr, hgc⟩ := mem_auto_shape hregion
            exact ⟨_, _, _, _, _, hgc⟩
        obtain ⟨n, t, u, f, u2, hgc⟩ := hshape
        subst hgc
        rw [createProxyGroupConfig_eq]
        refine ⟨?_, ?_⟩
        · rintro ⟨-, hps⟩
          simp at hps
        · intro hus
          left
          exact ⟨rfl, rfl⟩
    · rcases List.mem_map.mp hcust with ⟨g0, hg0, hstrip⟩
      unfold generateCustomGroups generateCustomGroupsFrom at hg0
      rcases List.mem_filterMap.mp hg0 with ⟨kv, -, hparse⟩
      obtain ⟨hpx, hf, hu2, sel, huse, -⟩ := parseCustomGroup_some_shape hparse
      subst hstrip
      refine ⟨?_, ?_⟩
      · rintro ⟨-, hps⟩
        rw [show (stripInternal g0).proxies = g0.proxies from rfl, hpx] at hps
        simp at hps
      · intro hus
        left
        exact ⟨by rw [show (stripInternal g0).filter = g0.filter from rfl]; exact hf,
          by rw [show (stripInternal g0).url = g0.url from rfl]; exact hu2⟩
  · rcases hms : generateManualSelectGroup cfg cfg.providers with _ | mg <;> rw [hms] at hmanual
    · simp at hmanual
    · rw [List.mem_singleton] at hmanual
      subst hmanual
      obtain ⟨huse, hf, hu2, hpx⟩ := manualSelect_some_shape hms
      refine ⟨?_, ?_⟩
      · rintro ⟨-, hps⟩
        rw [hpx] at hps
        simp at hps
      · intro hus
        right
        rfl

/-- C5 witness: the amended statement applied to the concrete manual-select
group emitted for `cfgManualOn`. -/
theorem claimC5_witness :
    ¬(({ name := "MManual", type := "select", use := some ["A", "B"] } : PG).use.isSome = true
        ∧ ({ name := "MManual", type := "select",
             use := some ["A", "B"] } : PG).proxies.isSome = true)
    ∧ (({ name := "MManual", type := "select", use := some ["A", "B"] } : PG).use.isSome = true →
        (({ name := "MManual", type := "select", use := some ["A", "B"] } : PG).filter.isSome = true
          ∧ ({ name := "MManual", type := "select", use := some ["A", "B"] } : PG).url.isSome = true)
        ∨ generateManualSelectGroup cfgManualOn cfgManualOn.providers
          = some { name := "MManual", type := "select", use := some ["A", "B"] }) :=
  claimC5_amended cfgManualOn ((generateAllProxyGroups cfgManualOn).getD []) rfl
    { name := "MManual", type := "select", use := some ["A", "B"] } (by decide)

/-! ## Duplicate-freedom machinery -/

theorem flatMap_sublist {α β : Type} {f g : α → List β} :
    ∀ {l : List α}, (∀ a ∈ l, (f a).Sublist (g a)) →
      (l.flatMap f).Sublist (l.flatMap g)
  | [], _ => List.Sublist.refl _
  | a :: rest, h => by
    rw [List.flatMap_cons, List.flatMap_cons]
    exact List.Sublist.append (h a (List.mem_cons_self a rest))
      (flatMap_sublist fun x hx => h x (List.mem_cons_of_mem a hx))

theorem relayDerived_sublist (cfg : Cfg) (providers : List String)
    (regions : List (String × Region)) (includedRegions : List String) :
    (relayDerivedProxies cfg providers regions includedRegions).Sublist
      (getRegionGroupNames cfg providers regions cfg.useMergedRegionGroups) := by
  unfold relayDerivedProxies getRegionGroupNames
  cases hm : cfg.useMergedRegionGroups with
  | true =>
    simp only [if_true]
    unfold mergedStyleNames
    rw [filterMap_if_eq_map_filter (fun rr : String × Region => includedRegions.contains rr.1)
      (fun rr : String × Region => rr.2.emoji ++ rr.1) regions]
    exact List.Sublist.map _ (List.filter_sublist regions)
  | false =>
    simp only [Bool.false_eq_true, if_false]
    refine flatMap_sublist ?_
    intro p hp
    refine sublist_filterMap_of ?_
    intro rr hrr
    by_cases hs : ((getRegionProvidersConfig cfg providers).lookup rr.1).isSome = true
    · by_cases hc : (((getRegionProvidersConfig cfg providers).lookup rr.1).getD []).contains p
          = true
      · by_cases hi : includedRegions.contains rr.1 = true
        · left
          rw [if_pos hs, if_pos hs]
          rw [if_pos (by rw [hc, hi]; rfl :
            ((((getRegionProvidersConfig cfg providers).lookup rr.1).getD []).contains p
              && includedRegions.contains rr.1) = true)]
          rw [if_pos hc]
        · right
          rw [if_pos hs]
          rw [if_neg (by rw [hc]; simpa using hi :
            ¬ ((((getRegionProvidersConfig cfg providers).lookup rr.1).getD []).contains p
              && includedRegions.contains rr.1) = true)]
      · right
        rw [if_pos hs]
        rw [if_neg (by rw [Bool.not_eq_true] at hc; rw [hc]; simp :
          ¬ ((((getRegionProvidersConfig cfg providers).lookup rr.1).getD []).contains p
            && includedRegions.contains rr.1) = true)]
    · by_cases hi : includedRegions.contains rr.1 = true
      · left
        rw [if_neg hs, if_neg hs, if_pos hi]
      · right
        rw [if_neg hs, if_neg hi]

theorem relayProxiesFinal_nodup {cfg : Cfg} {providers : List String}
    {regions : List (String × Region)} {rs : RelaySec}
    (hnd : (relayDerivedProxies cfg providers regions (relayIncludedRegions rs regions)).Nodup) :
    (relayProxiesFinal cfg providers regions rs).Nodup := by
  unfold relayProxiesFinal
  dsimp only
  split
  · split
    · next hcont =>
      exact List.Nodup.cons hnd.not_mem_erase (hnd.erase _)
    · exact hnd
  · exact hnd

theorem mem_relay_proxies {cfg : Cfg} {providers : List String}
    {regions : List (String × Region)} {g : PG}
    (hg : g ∈ generateRelayGroup cfg providers regions) :
    ∃ rs, cfg.relaySec = some rs
      ∧ g.proxies = some ((relayProxiesFinal cfg providers regions rs).map some)
      ∧ g.use = none := by
  rcases hrs : cfg.relaySec with _ | rs
  · unfold generateRelayGroup at hg
    rw [hrs] at hg
    simp at hg
  · unfold generateRelayGroup at hg
    rw [hrs] at hg
    dsimp only at hg
    split at hg
    · simp at hg
    · rw [List.mem_singleton] at hg
      subst hg
      refine ⟨rs, rfl, ?_, ?_⟩
      · split_ifs <;> simp [relayProxiesFinal]
      · split_ifs <;> rfl

theorem nodup_filterMap_if {α β : Type} [DecidableEq β] (p : α → Bool) (f : α → β) (l : List α)
    (h : (l.map f).Nodup) :
    (l.filterMap fun a => if p a = true then some (f a) else none).Nodup := by
  rw [filterMap_if_eq_map_filter]
  exact h.sublist (List.Sublist.map f (List.filter_sublist l))

theorem mem_mainRegionPart_names {cfg : Cfg} {regions : List (String × Region)}
    {regionGroupNames : List String} {groupName : String} {d x : Option String}
    (hx : x ∈ mainRegionPart cfg regions regionGroupNames groupName d) :
    ∃ n, x = some n ∧ (n ∈ regionGroupNames ∨ n ∈ mergedStyleNames regions) := by
  unfold mainRegionPart at hx
  split at hx
  · split at hx
    · simp at hx
    · rcases List.mem_filterMap.mp hx with ⟨rr, hrr, hn⟩
      split at hn
      · cases hn
        exact ⟨_, rfl, Or.inr (List.mem_map.mpr ⟨rr, hrr, rfl⟩)⟩
      · exact absurd hn (by simp)
  · rcases List.mem_filterMap.mp hx with ⟨n, hn0, hn⟩
    split at hn
    · cases hn
      exact ⟨n, rfl, Or.inl hn0⟩
    · exact absurd hn (by simp)

theorem mem_mainCustomPart_names {customGroups : List PG} {groupName : String}
    {d x : Option String} (hx : x ∈ mainCustomPart customGroups groupName d) :
    ∃ n, x = some n ∧ n ∈ customGroups.map PG.name := by
  unfold mainCustomPart at hx
  rcases List.mem_filterMap.mp hx with ⟨cg, hcg, hn⟩
  split at hn
  · cases hn
    exact ⟨cg.name, rfl, List.mem_map.mpr ⟨cg, hcg, rfl⟩⟩
  · exact absurd hn (by simp)

theorem mainRegionPart_nodup {cfg : Cfg} {regions : List (String × Region)}
    {regionGroupNames : List String} {groupName : String} {d : Option String}
    (hrg : regionGroupNames.Nodup) (hmr : (mergedStyleNames regions).Nodup) :
    (mainRegionPart cfg regions regionGroupNames groupName d).Nodup := by
  have hmapped : (regions.map fun rr => some (rr.2.emoji ++ rr.1) : List (Option String)).Nodup := by
    have hsm := hmr.map (Option.some_injective String)
    rw [mergedStyleNames, List.map_map] at hsm
    exact hsm
  unfold mainRegionPart
  split
  · next x regionList heq =>
    split
    · exact List.nodup_nil
    · exact nodup_filterMap_if
        (fun rr => regionList.contains rr.1 && some (rr.2.emoji ++ rr.1) != d)
        (fun rr => some (rr.2.emoji ++ rr.1)) regions hmapped
  · exact nodup_filterMap_if (fun n => some n != d) (fun n => some n) regionGroupNames
      (hrg.map (Option.some_injective String))

theorem mainCustomPart_nodup {customGroups : List PG} {groupName : String}
    {d : Option String} (hc : (customGroups.map PG.name).Nodup) :
    (mainCustomPart customGroups groupName d).Nodup := by
  have hmapped : (customGroups.map fun cg => some cg.name : List (Option String)).Nodup := by
    have hsm := hc.map (Option.some_injective String)
    rw [List.map_map] at hsm
    exact hsm
  unfold mainCustomPart
  exact nodup_filterMap_if
    (fun cg => ((cg.targetGroups.getD []).isEmpty || (cg.targetGroups.getD []).contains groupName)
      && some cg.name != d)
    (fun cg => some cg.name) customGroups hmapped

theorem mainBase_nodup {cfg : Cfg} {regions : List (String × Region)}
    {regionGroupNames : List String} {customGroups : List PG} {groupName : String}
    {d : Option String}
    (hrg : regionGroupNames.Nodup) (hmr : (mergedStyleNames regions).Nodup)
    (hc : (customGroups.map PG.name).Nodup)
    (hd1 : ∀ n ∈ customGroups.map PG.name, n ∉ regionGroupNames)
    (hd2 : ∀ n ∈ customGroups.map PG.name, n ∉ mergedStyleNames regions) :
    (mainPinPart d ++ mainRegionPart cfg regions regionGroupNames groupName d
      ++ mainCustomPart customGroups groupName d).Nodup := by
  have hrnd : (mainRegionPart cfg regions regionGroupNames groupName d).Nodup :=
    mainRegionPart_nodup hrg hmr
  have hcnd : (mainCustomPart customGroups groupName d).Nodup :=
    mainCustomPart_nodup hc
  have hdisjRC : (mainRegionPart cfg regions regionGroupNames groupName d).Disjoint
      (mainCustomPart customGroups groupName d) := by
    intro x hxr hxc
    obtain ⟨n, hxn, hn⟩ := mem_mainRegionPart_names hxr
    obtain ⟨n2, hxn2, hn2⟩ := mem_mainCustomPart_names hxc
    rw [hxn] at hxn2
    rw [Option.some_inj] at hxn2
    subst hxn2
    rcases hn with hn | hn
    · exact hd1 n hn2 hn
    · exact hd2 n hn2 hn
  have hrc : (mainRegionPart cfg regions regionGroupNames groupName d
      ++ mainCustomPart customGroups groupName d).Nodup :=
    List.nodup_append.mpr ⟨hrnd, hcnd, hdisjRC⟩
  cases d with
  | none => simpa [mainPinPart] using hrc
  | some m =>
    rw [show mainPinPart (some m)
        ++ mainRegionPart cfg regions regionGroupNames groupName (some m)
        ++ mainCustomPart customGroups groupName (some m)
        = some m :: (mainRegionPart cfg regions regionGroupNames groupName (some m)
          ++ mainCustomPart customGroups groupName (some m)) from by simp [mainPinPart]]
    refine List.Nodup.cons ?_ hrc
    intro hm
    rcases List.mem_append.mp hm with hm | hm
    · exact mem_mainRegionPart_ne hm rfl
    · exact mem_mainCustomPart_ne hm rfl

theorem buildMainProxies_nodup {cfg : Cfg} {regions : List (String × Region)}
    {regionGroupNames : List String} {customGroups : List PG}
    {manualSelectGroup : Option PG} {groupName : String} {d : Option String}
    (hb : (mainPinPart d ++ mainRegionPart cfg regions regionGroupNames groupName d
      ++ mainCustomPart customGroups groupName d).Nodup) :
    (buildMainProxies cfg regions regionGroupNames customGroups manualSelectGroup
      groupName d).Nodup := by
  rcases hrel : relayGroupNameOf cfg with _ | rn <;> rcases manualSelectGroup with _ | mg <;>
    simp only [buildMainProxies, hrel]
  · exact guardedAppend_nodup (guardedCons_nodup hb)
  · exact guardedAppend_nodup (guardedAppend_nodup (guardedCons_nodup hb))
  · exact guardedAppend_nodup (guardedAppend_nodup (guardedCons_nodup hb))
  · exact guardedAppend_nodup (guardedAppend_nodup (guardedAppend_nodup (guardedCons_nodup hb)))

theorem mem_mains_proxies {cfg : Cfg} {providers : List String}
    {regions : List (String × Region)} {customGroups : List PG}
    {manualSelectGroup : Option PG} {g : PG}
    (hg : g ∈ generateMainProxyGroups cfg providers regions customGroups manualSelectGroup) :
    (∃ decl : MainGroupDecl, g.proxies = some (buildMainProxies cfg regions
        (getRegionGroupNames cfg providers regions cfg.useMergedRegionGroups)
        customGroups manualSelectGroup decl.name ((getProxyDefaults cfg).lookup decl.name)))
    ∨ (∃ sg ∈ cfg.specialGroups, g.proxies = some (sg.proxies.map some)) := by
  unfold generateMainProxyGroups at hg
  rcases List.mem_append.mp hg with hm | hm
  · rcases List.mem_map.mp hm with ⟨decl, hdm, hde⟩
    subst hde
    exact Or.inl ⟨decl, rfl⟩
  · rcases List.mem_map.mp hm with ⟨sg, hsg, hse⟩
    subst hse
    exact Or.inr ⟨sg, hsg, rfl⟩

/-- C3 counterexample: in merged mode with the `[region_providers]` entry
`HK = A,A`, the merged region group's `use` list is `[A, A]` — a repeated
member. -/
theorem claimC3_counterexample :
    (generateAllProxyGroups cfgDupRestriction).elim false someGroupHasDupMembers = true := by
  decide

/-- C3 (amended): every emitted group's member list is duplicate-free
provided the input carries no colliding names: the provider list, each
restriction entry and each custom spec's provider field are duplicate-free,
the derived region-group names (both naming styles) are duplicate-free, the
custom-group names are duplicate-free and disjoint from the region-group
names, and each special group's verbatim proxies are duplicate-free.  The
code deduplicates only the relay/manual/DIRECT tail of main groups, so the
hypotheses are necessary: duplicated input names reach the output verbatim. -/
theorem claimC3_amended (cfg : Cfg) (gs : List PG)
    (hgen : generateAllProxyGroups cfg = some gs)
    (hprov : cfg.providers.Nodup)
    (hraw : ∀ kv ∈ rawRegionProviders cfg, kv.2.Nodup)
    (hspecnd : ∀ kv ∈ cfg.customGroupSpecs, (customSpecProviderList kv.2).Nodup)
    (hrgn : (getRegionGroupNames cfg cfg.providers cfg.regions cfg.useMergedRegionGroups).Nodup)
    (hmrg : (mergedStyleNames cfg.regions).Nodup)
    (hcustnd : (customNamesOf cfg).Nodup)
    (hdisj1 : ∀ n ∈ customNamesOf cfg,
      n ∉ getRegionGroupNames cfg cfg.providers cfg.regions cfg.useMergedRegionGroups)
    (hdisj2 : ∀ n ∈ customNamesOf cfg, n ∉ mergedStyleNames cfg.regions)
    (hspecial : ∀ sg ∈ cfg.specialGroups, sg.proxies.Nodup) :
    ∀ g ∈ gs, (memberList g).Nodup := by
  obtain ⟨rgs, hr⟩ := regionFactory_of_all cfg gs hgen
  rw [generateAllProxyGroups_eq cfg rgs hr] at hgen
  have hgs := (Option.some_inj.mp hgen).symm
  subst hgs
  intro g hg
  rcases List.mem_append.mp hg with hg | hmanual
  · rcases List.mem_append.mp hg with hg | hcust
    · rcases List.mem_append.mp hg with hg | hregion
      · rcases List.mem_append.mp hg with hrelay | hmain
        · obtain ⟨rs, hrs, hpx, hu⟩ := mem_relay_proxies hrelay
          unfold memberList
          rw [hpx, hu]
          simp only [Option.getD_some, Option.getD_none, List.map_nil, List.append_nil]
          refine List.Nodup.map (Option.some_injective String) ?_
          refine relayProxiesFinal_nodup ?_
          exact hrgn.sublist (relayDerived_sublist cfg cfg.providers cfg.regions _)
        · rcases mem_mains_proxies hmain with ⟨decl, hpx⟩ | ⟨sg, hsg, hpx⟩
          · have huse : g.use = none := (mem_mains_shape hmain).1
            unfold memberList
            rw [hpx, huse]
            simp only [Option.getD_some, Option.getD_none, List.map_nil, List.append_nil]
            refine buildMainProxies_nodup ?_
            exact mainBase_nodup hrgn hmrg hcustnd hdisj1 hdisj2
          · have huse : g.use = none := (mem_mains_shape hmain).1
            unfold memberList
            rw [hpx, huse]
            simp only [Option.getD_some, Option.getD_none, List.map_nil, List.append_nil]
            exact (hspecial sg hsg).map (Option.some_injective String)
      · unfold regionFactoryGroups at hr
        split at hr
        · unfold generateMergedRegionGroups at hr
          rcases mergedLoop_mem hr g hregion with habs | ⟨rr, sel, fr, hsel, hgc⟩
          · exact absurd habs (by simp)
          · subst hgc
            unfold memberList
            rw [createProxyGroupConfig_proxies, createProxyGroupConfig_use_getD]
            simp only [Option.getD_none, List.nil_append]
            refine List.Nodup.map (Option.some_injective String) ?_
            unfold mergedSel at hsel
            split at hsel
            · next lst heq =>
              dsimp only at hsel
              split at hsel
              · exact absurd hsel (by simp)
              · rw [Option.some_inj] at hsel
                subst hsel
                exact ((hraw (rr.1, lst) (lookup_mem heq)).filter _)
            · rw [Option.some_inj] at hsel
              subst hsel
              exact hprov
        · have hauto := Option.some_inj.mp hr
          rw [← hauto] at hregion
          obtain ⟨p, rr, hgc⟩ := mem_auto_shape hregion
          subst hgc
          unfold memberList
          rw [createProxyGroupConfig_proxies, createProxyGroupConfig_use_getD]
          simp
    · rcases List.mem_map.mp hcust with ⟨g0, hg0, hstrip⟩
      unfold generateCustomGroups generateCustomGroupsFrom at hg0
      rcases List.mem_filterMap.mp hg0 with ⟨kv, hkv, hparse⟩
      obtain ⟨hpx, -, -, sel, huse, hseldisj⟩ := parseCustomGroup_some_shape hparse
      subst hstrip
      unfold memberList
      rw [show (stripInternal g0).proxies = g0.proxies from rfl,
        show (stripInternal g0).use = g0.use from rfl, hpx, huse]
      simp only [Option.getD_none, List.nil_append, Option.getD_some]
      refine List.Nodup.map (Option.some_injective String) ?_
      rcases hseldisj with hsel | hsel
      · subst hsel
        exact (hspecnd kv hkv).filter _
      · subst hsel
        exact hprov
  · rcases hms : generateManualSelectGroup cfg cfg.providers with _ | mg <;> rw [hms] at hmanual
    · simp at hmanual
    · rw [List.mem_singleton] at hmanual
      subst hmanual
      obtain ⟨huse, -, -, hpx⟩ := manualSelect_some_shape hms
      unfold memberList
      rw [hpx, huse]
      simp only [Option.getD_none, List.nil_append, Option.getD_some]
      exact hprov.map (Option.some_injective String)

/-- C3 witness: the amended statement applied to the emitted `Main` group of
`cfgGhostPin`, whose inputs satisfy every duplicate-freedom hypothesis. -/
theorem claimC3_witness :
    (memberList ({ name := "Main", type := "select",
                     proxies := some [some "GHOST", some "🇭🇰HK_A", some "DIRECT"] } : PG)).Nodup :=
  claimC3_amended cfgGhostPin ((generateAllProxyGroups cfgGhostPin).getD []) rfl
    (by decide) (by decide) (by decide) (by decide) (by decide) (by decide) (by decide)
    (by decide) (by decide)
    ({ name := "Main", type := "select",
         proxies := some [some "GHOST", some "🇭🇰HK_A", some "DIRECT"] } : PG)
    (by decide)

end ClashGen
